import Mathlib

/-!
# The thread processor of `pkg/lib/threads/threadprocessor.go`

A shallow embedding of the thread/collection synchronisation processor:

* the Go string operations the processor relies on (`strings.HasPrefix`,
  `strings.Split(s, sep)[0]`);
* the collection registry (`GetCollectionWithPrefix`, `AddCollectionWithPrefix`,
  `addCollection`) over a model of the replicated store handle;
* the processor lifecycle (`Init` and its options);
* the closures of `Listen`: `removeElement`, `removeThread`, `processThread`,
  `processThreadActions`, and the loop of the listener goroutine;
* sync sessions as sequences of steps of these closures, and the listener
  goroutine on sequences of inputs of its `select` (timer expiries, timer
  signals, actions, cancellation).

Stateful code is written in state-passing style.  Calls to collaborators that are
not part of the package (the thread service, the store, the object deleter, the
progress notifier, the registered handlers) are recorded in a log of `Call`s, and
their answers are supplied by explicit oracle arguments.  A Go panic (nil
dereference, write to a nil map, `ID.String` of the undefined id) is the result
`none`.
-/

namespace Threads

/-! ## Go strings -/

/-- A Go string, as the list of its characters. -/
abbrev GoString := List Char

/-- Go `strings.HasPrefix(s, pre)`. -/
def HasPrefix (s pre : GoString) : Bool := pre.isPrefixOf s

/-- The part of `s` in front of the first occurrence of `sep`, all of `s` when
`sep` does not occur in it: `s[:strings.Index(s, sep)]` for a non-empty `sep`. -/
def cutBefore : GoString → GoString → GoString
  | [], _ => []
  | c :: cs, sep => if sep.isPrefixOf (c :: cs) then [] else c :: cutBefore cs sep

/-- Go `strings.Split(s, sep)[0]`.  For a non-empty separator the first piece is
the part of `s` before the first occurrence of `sep`; for the empty separator
`Split` explodes `s` into its characters, so the first piece is the first
character (on the empty string Go has no first piece and the index panics; the
processor only splits on the string of a defined thread id, which is never
empty). -/
def splitFirst (s sep : GoString) : GoString :=
  if sep = [] then s.take 1 else cutBefore s sep

/-! ## Go maps -/

/-- A Go map, as an association list that holds every key at most once. -/
abbrev GoMap (K V : Type) := List (K × V)

/-- Map read `v, ok := m[k]`: `some v` when the key is present. -/
def GoMap.get? {K V : Type} [DecidableEq K] : GoMap K V → K → Option V
  | [], _ => none
  | (k1, v) :: m, k => if k1 = k then some v else GoMap.get? m k

/-- Go `delete(m, k)`. -/
def GoMap.delete {K V : Type} [DecidableEq K] (m : GoMap K V) (k : K) : GoMap K V :=
  m.filter (fun e => e.1 ≠ k)

/-- Map write `m[k] = v`. -/
def GoMap.set {K V : Type} [DecidableEq K] (m : GoMap K V) (k : K) (v : V) : GoMap K V :=
  (k, v) :: GoMap.delete m k

/-- Go `len(m)`. -/
def GoMap.len {K V : Type} (m : GoMap K V) : Nat := m.length

/-! ## Identifiers, errors, collaborator values -/

/-- A `thread.ID`, represented by its canonical string form (the multibase string
that `ID.String()` returns).  `thread.Undef`, the zero value, has no string form
and is represented by the empty string. -/
structure ID where
  str : GoString
deriving DecidableEq, Repr

/-- The undefined thread id `thread.Undef`. -/
def ID.Undef : ID := ⟨[]⟩

/-- Go `id.String()`: panics (`none`) on the undefined id. -/
def ID.String (i : ID) : Option GoString :=
  if i = ID.Undef then none else some i.str

/-- Go `error` values that the processor tells apart.  `undefinedThread` and
`notDownloaded` are the two errors `Init` builds itself; `other` stands for any
other error of a collaborator. -/
inductive Error where
  | ErrThreadNotFound
  | undefinedThread
  | notDownloaded (cause : Error)
  | other (code : Nat)
deriving DecidableEq, Repr

/-- A collection schema (the `interface{}` instance handed to registration). -/
abbrev Schema := Nat

/-- A non-nil `*threadsDb.Collection`, identified by its address. -/
structure Collection where
  addr : Nat
deriving DecidableEq, Repr

/-- A `CollectionActionProcessor` function value, identified by a tag. -/
structure Handler where
  tag : Nat
deriving DecidableEq, Repr

/-- The record `threadsDb.CollectionConfig` (name and schema). -/
structure CollectionConfig where
  Name : GoString
  Schema : Schema
deriving DecidableEq, Repr

/-- The store handle `*threadsDb.DB`, an external collaborator: the table of its
collections by full name, and the log of the `NewCollection` requests it has
received (oldest first). -/
structure DB where
  collections : GoMap GoString Collection
  newCollectionCalls : List CollectionConfig
deriving DecidableEq, Repr

/-- The answer of the store to a create request. -/
abbrev StoreOracle := CollectionConfig → Except Error Collection

/-- Store lookup `db.GetCollection(name)`: the collection, or nil (`none`). -/
def DB.GetCollection (d : DB) (name : GoString) : Option Collection :=
  d.collections.get? name

/-- Store creation `db.NewCollection(config)`, answered by `store`: an error
leaves the table as it is, a success records the new collection under
`config.Name`.  The Go result pair `(collection, err)` is the sum `Except`. -/
def DB.NewCollection (d : DB) (config : CollectionConfig) (store : StoreOracle) :
    Except Error Collection × DB :=
  let d1 : DB := { d with newCollectionCalls := d.newCollectionCalls ++ [config] }
  match store config with
  | .error e => (.error e, d1)
  | .ok c => (.ok c, { d1 with collections := d1.collections.set config.Name c })

/-- A replicated record `threadInfo` of the thread-info collection. -/
structure threadInfo where
  ID : GoString
  Key : GoString
  Addrs : List GoString
deriving DecidableEq, Repr

/-- A `threadsDb.ActionType`, a Go `int`. -/
abbrev ActionType := Int

/-- The constant `threadsDb.ActionCreate`. -/
def ActionCreate : ActionType := 1

/-- The constant `threadsDb.ActionSave`. -/
def ActionSave : ActionType := 2

/-- The constant `threadsDb.ActionDelete`. -/
def ActionDelete : ActionType := 3

/-- A `threadsDb.Action`: one observed mutation of the store (the field `Type` of
the source is `Type_` here). -/
structure Action where
  Collection : GoString
  Type_ : ActionType
  ID : GoString
deriving DecidableEq, Repr

/-- A call to a collaborator of the processor, as it is logged by the model. -/
inductive Call where
  | GetThread (tid : ID)
  | NewDB (tid : ID) (key : GoString)
  | Start
  | SetTotalThreads (n : Int)
  | AddThread
  | Finish
  | processNewExternalThreadUntilSuccess (tid : ID) (ti : threadInfo)
  | DeleteObject (tid : GoString)
  | FindByID (id : GoString)
  | actionProcessor (h : Handler) (action : Action) (collection : Collection)
deriving DecidableEq, Repr

/-! ## The processor and its collection registry -/

/-- The fields of `threadProcessor` that the methods read or write.  A nil
pointer or nil map is `none`. -/
structure threadProcessor where
  db : Option DB
  threadsCollection : Option Collection
  collections : Option (GoMap GoString Collection)
  actionProcessors : Option (GoMap GoString Handler)
  isAccountProcessor : Bool
  threadId : ID
deriving DecidableEq, Repr

/-- A processor as `NewThreadProcessor` / `NewAccountThreadProcessor` build it. -/
def NewThreadProcessor (isAccountProcessor : Bool) : threadProcessor :=
  { db := none, threadsCollection := none, collections := none, actionProcessors := none,
    isAccountProcessor := isAccountProcessor, threadId := ID.Undef }

/-- Go map read on a possibly nil map: a nil map reads as the empty map. -/
def readMap {V : Type} (m : Option (GoMap GoString V)) (k : GoString) : Option V :=
  match m with
  | none => none
  | some m => m.get? k

/-- Method `GetCollectionWithPrefix`: `t.collections[prefix]` (nil when absent). -/
def GetCollectionWithPrefix (t : threadProcessor) (pfx : GoString) : Option Collection :=
  readMap t.collections pfx

/-- Method `GetThreadCollection`. -/
def GetThreadCollection (t : threadProcessor) : Option Collection := t.threadsCollection

/-- Method `GetDB`. -/
def GetDB (t : threadProcessor) : Option DB := t.db

/-- Method `GetThreadId`. -/
def GetThreadId (t : threadProcessor) : ID := t.threadId

/-- Method `addCollection`: reopen the collection when the store has it, create it
otherwise.  Panics (`none`) on a nil store handle. -/
def addCollection (t : threadProcessor) (collectionName : GoString) (schema : Schema)
    (store : StoreOracle) : Option (Except Error Collection × threadProcessor) :=
  match t.db with
  | none => none
  | some d =>
    match d.GetCollection collectionName with
    | some c => some (.ok c, t)
    | none =>
      let r := d.NewCollection { Name := collectionName, Schema := schema } store
      some (r.1, { t with db := some r.2 })

/-- Method `AddCollectionWithPrefix`: register `prefix` under the full name
`prefix + t.threadId.String()`; the registry map is written only when
`addCollection` returns no error.  Panics (`none`) on an undefined thread id, on
a nil store handle, and on a write to the nil registry map. -/
def AddCollectionWithPrefix (t : threadProcessor) (pfx : GoString) (schema : Schema)
    (store : StoreOracle) : Option (Except Error Collection × threadProcessor) :=
  match t.threadId.String with
  | none => none
  | some idString =>
    let fullName := pfx ++ idString
    match addCollection t fullName schema store with
    | none => none
    | some (.ok coll, t1) =>
      match t1.collections with
      | none => none
      | some m => some (.ok coll, { t1 with collections := some (m.set pfx coll) })
    | some (.error err, t1) => some (.error err, t1)

/-! ## Initialisation -/

/-- The record `ThreadProcessorOptions`. -/
structure ThreadProcessorOptions where
  actionProcessors : GoMap GoString Handler
  collections : GoMap GoString Schema
deriving DecidableEq, Repr

/-- Constructor `NewThreadProcessorOptions`: two empty maps. -/
def NewThreadProcessorOptions : ThreadProcessorOptions :=
  { actionProcessors := [], collections := [] }

/-- A `ThreadProcessorOption`: one of the two option constructors of the package. -/
inductive ThreadProcessorOption where
  | WithCollection (collectionName : GoString) (schema : Schema)
  | WithCollectionAndActionProcessor (collectionName : GoString) (schema : Schema)
      (actionProcessor : Handler)
deriving DecidableEq, Repr

/-- Applying an option to the options record (`opt(processorOptions)`). -/
def ThreadProcessorOption.apply :
    ThreadProcessorOption → ThreadProcessorOptions → ThreadProcessorOptions
  | .WithCollection collectionName schema, options =>
    { options with collections := options.collections.set collectionName schema }
  | .WithCollectionAndActionProcessor collectionName schema actionProcessor, options =>
    { collections := options.collections.set collectionName schema,
      actionProcessors := options.actionProcessors.set collectionName actionProcessor }

/-- The collaborators of `Init`: the thread service (`GetThread` gives the key of
the thread or an error), the store constructor `threadsDb.NewDB`, the answers of
the opened store to create requests, and the order in which Go's `range` visits
the entries of the collections map. -/
structure InitEnv where
  GetThread : ID → Except Error GoString
  NewDB : ID → GoString → Except Error DB
  store : StoreOracle
  rangeOrder : GoMap GoString Schema → List (GoString × Schema)

/-- The schema instance `threadInfo{}` of the thread-info collection. -/
def threadInfoSchema : Schema := 0

/-- The loop of `Init` over the caller-supplied collections: stop at the first
registration error. -/
def registerOptions (store : StoreOracle) :
    threadProcessor → List (GoString × Schema) → Option (Option Error × threadProcessor)
  | t, [] => some (none, t)
  | t, (name, schema) :: rest =>
    match AddCollectionWithPrefix t name schema store with
    | none => none
    | some (.error err, t1) => some (some err, t1)
    | some (.ok _, t1) => registerOptions store t1 rest

/-- Method `Init`.  `ThreadInfoCollectionName` is a constant of the package that
is declared in another file.  The result is the returned error (`none` for nil),
the processor after the call, and the collaborator calls made. -/
def Init (ThreadInfoCollectionName : GoString) (env : InitEnv) (t : threadProcessor) (id : ID)
    (options : List ThreadProcessorOption) :
    Option (Option Error × threadProcessor × List Call) :=
  if t.db ≠ none then some (none, t, [])
  else
    let processorOptions := options.foldl (fun o opt => opt.apply o) NewThreadProcessorOptions
    if id = ID.Undef then some (some Error.undefinedThread, t, [])
    else
      let t1 : threadProcessor := { t with threadId := id }
      match env.GetThread id with
      | .error err => some (some (Error.notDownloaded err), t1, [Call.GetThread id])
      | .ok key =>
        let calls := [Call.GetThread id, Call.NewDB id key]
        match env.NewDB id key with
        | .error err => some (some err, { t1 with db := none }, calls)
        | .ok d =>
          let t2 : threadProcessor := { t1 with db := some d }
          match t2.threadId.String with
          | none => none
          | some idString =>
            let threadIdString := if t2.isAccountProcessor then [] else idString
            let threadsCollectionName := ThreadInfoCollectionName ++ threadIdString
            let t3 : threadProcessor := { t2 with collections := some [] }
            match addCollection t3 threadsCollectionName threadInfoSchema env.store with
            | none => none
            | some (.error err, t4) => some (some err, { t4 with threadsCollection := none }, calls)
            | some (.ok coll, t4) =>
              match t4.collections with
              | none => none
              | some m =>
                let t5 : threadProcessor :=
                  { t4 with threadsCollection := some coll,
                            collections := some (m.set ThreadInfoCollectionName coll) }
                match registerOptions env.store t5 (env.rangeOrder processorOptions.collections) with
                | none => none
                | some (some err, t6) => some (some err, t6, calls)
                | some (none, t6) =>
                  some (none, { t6 with actionProcessors := some processorOptions.actionProcessors },
                    calls)

/-! ## `Listen`: the sync session and its closures -/

/-- The answer of `t.threadsService.t.GetThread(ctx, tid)`: the `ID` field of the
returned info and the returned error (`none` for nil). -/
structure FetchResult where
  infoID : ID
  err : Option Error
deriving DecidableEq, Repr

/-- The variables that the closures of `Listen` share: the backlog map
`initialThreads`, the counter `threadsTotal`, the resolution goroutines that
`processThread` has launched and that have not returned yet, and the log of the
collaborator calls made so far (oldest first). -/
structure Sync where
  initialThreads : GoMap ID threadInfo
  threadsTotal : Int
  pending : List (ID × threadInfo)
  calls : List Call
deriving DecidableEq, Repr

/-- The membership test `_, isInitialThread := initialThreads[tid]`. -/
def isInitialThread (s : Sync) (tid : ID) : Bool := (s.initialThreads.get? tid).isSome

/-- Closure `removeElement`: when the thread is in the backlog, delete it,
decrement `threadsTotal` and report the new total.  The read-locked test and the
write-locked update are one step. -/
def removeElement (s : Sync) (tid : ID) : Sync :=
  if isInitialThread s tid then
    let threadsTotal := s.threadsTotal - 1
    { s with initialThreads := s.initialThreads.delete tid,
             threadsTotal := threadsTotal,
             calls := s.calls ++ [Call.SetTotalThreads threadsTotal] }
  else s

/-- Closure `removeThread`: one `DeleteObject` request; its answer `err` is only
logged. -/
def removeThread (s : Sync) (tid : GoString) (_err : Option Error) : Sync :=
  { s with calls := s.calls ++ [Call.DeleteObject tid] }

/-- Closure `processThread`, up to the launch of the resolution goroutine: fetch
the thread, drop it from the backlog on an error other than not-found or when the
fetched info is defined, and otherwise launch the goroutine, whose first statement
is the call of `processNewExternalThreadUntilSuccess`.  Logger and metrics calls
are left out, here and in the other closures. -/
def processThread (s : Sync) (tid : ID) (ti : threadInfo) (r : FetchResult) : Sync :=
  let s1 : Sync := { s with calls := s.calls ++ [Call.GetThread tid] }
  if r.err ≠ none ∧ r.err ≠ some Error.ErrThreadNotFound then removeElement s1 tid
  else if r.infoID ≠ ID.Undef then removeElement s1 tid
  else
    { s1 with pending := s1.pending ++ [(tid, ti)],
              calls := s1.calls ++ [Call.processNewExternalThreadUntilSuccess tid ti] }

/-- The rest of the goroutine that `processThread` launches, run when
`processNewExternalThreadUntilSuccess` has returned `err`.  The read-locked tests
and the write-locked update are one step. -/
def processThreadGo (s : Sync) (tid : ID) (err : Option Error) : Sync :=
  match err with
  | some _ => s
  | none =>
    if s.initialThreads.len = 0 then s
    else if isInitialThread s tid then
      let m := s.initialThreads.delete tid
      let calls := s.calls ++ [Call.AddThread]
      { s with initialThreads := m,
               calls := if m.len = 0 then calls ++ [Call.Finish] else calls }
    else s

/-- What can happen in a sync session: `processThread` is called on a thread (by
the seeding goroutine or by the router) and `GetThread` answers `r`; or
`processNewExternalThreadUntilSuccess` returns `err` in a launched goroutine. -/
inductive Event where
  | process (tid : ID) (ti : threadInfo) (r : FetchResult)
  | returned (tid : ID) (ti : threadInfo) (err : Option Error)
deriving DecidableEq, Repr

/-- One event of a session.  A `returned` event for a goroutine that is not
pending cannot happen and changes nothing. -/
def Sync.step (s : Sync) : Event → Sync
  | .process tid ti r => processThread s tid ti r
  | .returned tid ti err =>
    if (tid, ti) ∈ s.pending then
      processThreadGo { s with pending := s.pending.erase (tid, ti) } tid err
    else s

/-- A session: the events in the order in which they happen. -/
def Sync.run (s : Sync) (es : List Event) : Sync := es.foldl Sync.step s

/-- Method `Listen`, up to the launch of its goroutines: `listenErr` is the error
of `t.db.Listen()`, `recoveryProgress` tells whether the environment variable
`ANYTYPE_RECOVERY_PROGRESS` is `"1"`.  Panics (`none`) on a nil store handle. -/
def Listen (t : threadProcessor) (initialThreads : GoMap ID threadInfo)
    (listenErr : Option Error) (recoveryProgress : Bool) : Option (Except Error Sync) :=
  match t.db with
  | none => none
  | some _ =>
    match listenErr with
    | some err => some (.error err)
    | none =>
      let threadsTotal : Int := initialThreads.len
      let s : Sync :=
        { initialThreads := initialThreads, threadsTotal := threadsTotal, pending := [],
          calls := [] }
      if threadsTotal ≠ 0 then
        some (.ok { s with calls := (if recoveryProgress then [Call.Start] else []) ++
          [Call.SetTotalThreads threadsTotal] })
      else some (.ok s)

/-- The number of `AddThread` calls in a log. -/
def countAddThread (calls : List Call) : Nat := calls.count Call.AddThread

/-- The number of `Finish` calls in a log. -/
def countFinish (calls : List Call) : Nat := calls.count Call.Finish

/-! ## The action router -/

/-- The collaborators of the router: `FindByID` of the thread-info collection
(with the decoding of the instance), `thread.Decode`, the thread service and the
object deleter. -/
structure RouterEnv where
  FindByID : GoString → Except Error threadInfo
  Decode : GoString → Except Error ID
  GetThread : ID → FetchResult
  DeleteObject : GoString → Option Error

/-- The body of the loop of `processThreadActions`, for one action.  Panics
(`none`) where the Go code does: `String()` of an undefined thread id, `FindByID`
on a nil thread-info collection. -/
def routeAction (ThreadInfoCollectionName : GoString) (t : threadProcessor) (env : RouterEnv)
    (s : Sync) (action : Action) : Option Sync :=
  if !HasPrefix action.Collection ThreadInfoCollectionName then
    match t.threadId.String with
    | none => none
    | some idString =>
      let collectionName := splitFirst action.Collection idString
      match readMap t.collections collectionName, readMap t.actionProcessors collectionName with
      | some collection, some actionProcessor =>
        some { s with calls := s.calls ++ [Call.actionProcessor actionProcessor action collection] }
      | _, _ => some s
  else if action.Type_ = ActionDelete then
    some (removeThread s action.ID (env.DeleteObject action.ID))
  else if action.Type_ ≠ ActionCreate then some s
  else
    match t.threadsCollection with
    | none => none
    | some _ =>
      let s1 : Sync := { s with calls := s.calls ++ [Call.FindByID action.ID] }
      match env.FindByID action.ID with
      | .error _ => some s1
      | .ok ti =>
        match env.Decode ti.ID with
        | .error _ => some s1
        | .ok tid =>
          if s1.initialThreads.len ≠ 0 ∧ isInitialThread s1 tid then some s1
          else some (processThread s1 tid ti (env.GetThread tid))

/-- Closure `processThreadActions`: route the actions of a batch in order. -/
def processThreadActions (ThreadInfoCollectionName : GoString) (t : threadProcessor)
    (env : RouterEnv) : Sync → List Action → Option Sync
  | s, [] => some s
  | s, action :: actions =>
    match routeAction ThreadInfoCollectionName t env s action with
    | none => none
    | some s1 => processThreadActions ThreadInfoCollectionName t env s1 actions

/-! ## The listener goroutine -/

/-- The idle timer `tmr`, a `time.Timer` whose channel `tmr.C` buffers one signal:
`active` tells whether the timer is running (armed, neither expired nor stopped),
`signal` whether a signal waits in `tmr.C`. -/
structure Timer where
  active : Bool
  signal : Bool
deriving DecidableEq, Repr

/-- Go `time.NewTimer(deadline)`: a running timer with an empty channel. -/
def Timer.NewTimer : Timer := { active := true, signal := false }

/-- The running timer expires after its duration: it stops running and puts its
signal in the channel. -/
def Timer.expire (_tmr : Timer) : Timer := { active := false, signal := true }

/-- Go `tmr.Stop()`: the result is true exactly when the call stops a running
timer; the channel is left as it is. -/
def Timer.Stop (tmr : Timer) : Bool × Timer := (tmr.active, { tmr with active := false })

/-- Go `tmr.Reset(deadline)`: the timer runs again; the channel is left as it
is. -/
def Timer.Reset (tmr : Timer) : Timer := { tmr with active := true }

/-- The receive `<-tmr.C`: it takes the waiting signal, and blocks (`none`) when
there is none. -/
def Timer.recv (tmr : Timer) : Option Timer :=
  if tmr.signal then some { tmr with signal := false } else none

/-- The state of the listener goroutine: its buffer, the flag `timerRead`, the
timer, the batches handed to `go processThreadActions(buffCopy)` so far (oldest
first), whether the loop has returned, and whether the goroutine is blocked for
good in the receive `<-tmr.C` that precedes the reset. -/
structure Listener where
  flushBuffer : List Action
  timerRead : Bool
  tmr : Timer
  dispatched : List (List Action)
  returned : Bool
  blocked : Bool
deriving DecidableEq, Repr

/-- The listener goroutine before the first pass of its loop. -/
def Listener.init : Listener :=
  { flushBuffer := [], timerRead := false, tmr := Timer.NewTimer, dispatched := [],
    returned := false, blocked := false }

/-- What the listener goroutine meets: the timer expires (its signal is put in
`tmr.C`); `select` takes the case of the cancelled context; `select` takes the
case of the timer channel; `select` takes an action from the listen channel. -/
inductive Input where
  | expire
  | ctxDone
  | timer
  | msg (c : Action)
deriving DecidableEq, Repr

/-- Closure `processBuffer`: hand a copy of a non-empty buffer to routing and
clear the buffer. -/
def processBuffer (l : Listener) : Listener :=
  if l.flushBuffer.length = 0 then l
  else { l with dispatched := l.dispatched ++ [l.flushBuffer], flushBuffer := [] }

/-- The case `c := <-l.Channel()` of the loop: `tmr.Stop()`; when it is false and
`timerRead` is false, the receive `<-tmr.C`, which blocks the goroutine for good
when no signal waits; then `tmr.Reset(deadline)`, `timerRead = false` and the
append to the buffer. -/
def Listener.receive (l : Listener) (c : Action) : Listener :=
  let stop := l.tmr.Stop
  if !stop.1 && !l.timerRead then
    match stop.2.recv with
    | some tmr =>
      { l with tmr := tmr.Reset, timerRead := false, flushBuffer := l.flushBuffer ++ [c] }
    | none => { l with tmr := stop.2, blocked := true }
  else { l with tmr := stop.2.Reset, timerRead := false, flushBuffer := l.flushBuffer ++ [c] }

/-- One input of the listener goroutine; `none` when the input cannot occur in the
state (the goroutine has returned or is blocked, the timer is not running when it
should expire, no signal waits in `tmr.C` when `select` should take it). -/
def Listener.step (l : Listener) (i : Input) : Option Listener :=
  if l.returned || l.blocked then none
  else
    match i with
    | .expire => if l.tmr.active then some { l with tmr := l.tmr.expire } else none
    | .ctxDone => some { processBuffer l with returned := true }
    | .timer =>
      match l.tmr.recv with
      | some tmr => some (processBuffer { l with tmr := tmr, timerRead := true })
      | none => none
    | .msg c => some (l.receive c)

/-- The listener goroutine on a sequence of inputs; an input that cannot occur is
passed over. -/
def Listener.run : Listener → List Input → Listener
  | l, [] => l
  | l, i :: is =>
    match l.step i with
    | some l1 => Listener.run l1 is
    | none => Listener.run l is

/-- The actions that the listener goroutine receives from the listen channel
before the context is cancelled. -/
def received : List Input → List Action
  | [] => []
  | .ctxDone :: _ => []
  | .msg c :: is => c :: received is
  | _ :: is => received is

/-! ## A session with two backlog threads -/

/-- The thread-info record of a thread id. -/
def infoOf (tid : ID) : threadInfo := { ID := tid.str, Key := [], Addrs := [] }

/-- A backlog thread that is unknown to the local store. -/
def threadA : ID := ⟨"bafA".toList⟩

/-- A backlog thread that the local store already has. -/
def threadB : ID := ⟨"bafB".toList⟩

/-- An initialised processor of the workspace thread `bafw`. -/
def workspaceProcessor : threadProcessor :=
  { db := some { collections := [("threadsbafw".toList, ⟨1⟩)], newCollectionCalls := [] },
    threadsCollection := some ⟨1⟩, collections := some [("threads".toList, ⟨1⟩)],
    actionProcessors := some [], isAccountProcessor := false, threadId := ⟨"bafw".toList⟩ }

/-- The session in which `processThread` finds `threadA` unknown, the resolution
of `threadA` succeeds, and only then `processThread` finds `threadB` in the local
store. -/
def remoteFirst : List Event :=
  [Event.process threadA (infoOf threadA) ⟨ID.Undef, some Error.ErrThreadNotFound⟩,
   Event.returned threadA (infoOf threadA) none,
   Event.process threadB (infoOf threadB) ⟨threadB, none⟩]

/-- The session with the same three events, the resolution of `threadA` coming
last. -/
def remoteLast : List Event :=
  [Event.process threadA (infoOf threadA) ⟨ID.Undef, some Error.ErrThreadNotFound⟩,
   Event.process threadB (infoOf threadB) ⟨threadB, none⟩,
   Event.returned threadA (infoOf threadA) none]

/-! ## Notions used to state the properties of the router -/

/-- The handler launches `go actionProcessor(action, collection)` of a log, in
the order in which they were made. -/
def handlerCalls (calls : List Call) : List Call :=
  calls.filter (fun c => match c with
    | .actionProcessor _ _ _ => true
    | _ => false)

/-- The launch that the registry prescribes for an action: the handler and the
collection registered under the logical prefix of the action's collection name
(the name in front of the thread-id string), when both are registered. -/
def registeredLaunch (t : threadProcessor) (action : Action) : Option Call :=
  match readMap t.collections (splitFirst action.Collection t.threadId.str),
    readMap t.actionProcessors (splitFirst action.Collection t.threadId.str) with
  | some collection, some h => some (Call.actionProcessor h action collection)
  | _, _ => none

/-- An unmatched action: its collection name does not begin with the reserved
thread-info name, and its logical prefix lacks a registered collection or a
registered handler. -/
def unmatched (ThreadInfoCollectionName : GoString) (t : threadProcessor) (action : Action) :
    Bool :=
  !HasPrefix action.Collection ThreadInfoCollectionName && (registeredLaunch t action).isNone

/-- A processor of thread `bafk` with a collection and a handler registered under
the name `threadsX`, which begins with the reserved name `threads`. -/
def processorX : threadProcessor :=
  { db := some { collections := [], newCollectionCalls := [] },
    threadsCollection := some ⟨1⟩,
    collections := some [("threads".toList, ⟨1⟩), ("threadsX".toList, ⟨2⟩)],
    actionProcessors := some [("threadsX".toList, ⟨9⟩)],
    isAccountProcessor := false, threadId := ⟨"bafk".toList⟩ }

/-- A Save action on the registered collection `threadsX` of thread `bafk`. -/
def saveX : Action :=
  { Collection := "threadsXbafk".toList, Type_ := ActionSave, ID := "rec1".toList }

/-- A Delete action on the unregistered collection `threadsY` of thread `bafk`. -/
def deleteY : Action :=
  { Collection := "threadsYbafk".toList, Type_ := ActionDelete, ID := "rec2".toList }

/-- A session state with an empty backlog and an empty log. -/
def quietSync : Sync := { initialThreads := [], threadsTotal := 0, pending := [], calls := [] }

/-- Collaborators of the router that find no record and delete without error. -/
def plainRouterEnv : RouterEnv :=
  { FindByID := fun _ => .error (Error.other 0), Decode := fun _ => .error (Error.other 0),
    GetThread := fun _ => ⟨ID.Undef, some Error.ErrThreadNotFound⟩,
    DeleteObject := fun _ => none }

/-! ## Notions used to state the properties of the listener goroutine -/

/-- The invariant of the listener loop: the goroutine is not blocked; the timer
runs with an empty channel and the flag `timerRead` cleared, or it has expired,
its signal waits in the channel and the flag is cleared, or its signal has been
received and the flag is set; no dispatched batch is empty. -/
def Listener.ok (l : Listener) : Prop :=
  l.blocked = false ∧
  ((l.tmr = { active := true, signal := false } ∧ l.timerRead = false) ∨
    (l.tmr = { active := false, signal := true } ∧ l.timerRead = false) ∨
    (l.tmr = { active := false, signal := false } ∧ l.timerRead = true)) ∧
  ∀ b ∈ l.dispatched, b ≠ []

/-- The batch that `processBuffer` dispatches from a buffer: none from the empty
buffer, the whole buffer otherwise. -/
def finalBatch (buffer : List Action) : List (List Action) :=
  if buffer = [] then [] else [buffer]

/-- The test in front of the receive `<-tmr.C` of the loop:
`!tmr.Stop() && !timerRead`. -/
def Listener.drains (l : Listener) : Bool :=
  !l.tmr.Stop.1 && !l.timerRead

/-- Every input of the sequence can occur when its turn comes: the timer expires
only while it runs, `select` takes the case of the timer channel only when a
signal waits in it, and nothing happens once the goroutine has returned. -/
def Listener.admits : Listener → List Input → Bool
  | _, [] => true
  | l, i :: is =>
    match l.step i with
    | some l1 => Listener.admits l1 is
    | none => false

/-- The runs of actions of an input sequence between the timer signals that
`select` takes: with the run `run` open at the start, the non-empty runs closed by
a `timer` input, in order, and the run left open at the end. -/
def cutAtTimer : List Action → List Input → List (List Action) × List Action
  | run, [] => ([], run)
  | run, .timer :: is => (finalBatch run ++ (cutAtTimer [] is).1, (cutAtTimer [] is).2)
  | run, .msg c :: is => cutAtTimer (run ++ [c]) is
  | run, .expire :: is => cutAtTimer run is
  | run, .ctxDone :: is => cutAtTimer run is

/-- An action on the collection `docsbafw`. -/
def actionA : Action := { Collection := "docsbafw".toList, Type_ := ActionCreate, ID := "a".toList }

/-- A second action on the collection `docsbafw`. -/
def actionB : Action := { Collection := "docsbafw".toList, Type_ := ActionSave, ID := "b".toList }

/-- The timer expires between two actions, `select` takes the second action
before the signal of the timer, and takes the signal of the next expiry. -/
def lateSignal : List Input :=
  [Input.msg actionA, Input.expire, Input.msg actionB, Input.expire, Input.timer]

/-- The timer expires between two actions and `select` takes its signal before
the second action, and after it the signal of the next expiry. -/
def promptSignal : List Input :=
  [Input.msg actionA, Input.expire, Input.timer, Input.msg actionB, Input.expire, Input.timer]

/-! ## Sync sessions with routed actions -/

/-- A step of a sync session: an event of a resolution task, or the router
handling one action of a batch, with the collaborators answering as `env`. -/
inductive SessionStep where
  | task (e : Event)
  | route (env : RouterEnv) (action : Action)

/-- One step of a session of the processor `t`.  A panic of the router ends the
program; the state stays as it was. -/
def Sync.sessionStep (ThreadInfoCollectionName : GoString) (t : threadProcessor) (s : Sync) :
    SessionStep → Sync
  | .task e => s.step e
  | .route env action => (routeAction ThreadInfoCollectionName t env s action).getD s

/-- A session: its steps in the order in which they happen. -/
def Sync.session (ThreadInfoCollectionName : GoString) (t : threadProcessor) (s : Sync)
    (steps : List SessionStep) : Sync :=
  steps.foldl (Sync.sessionStep ThreadInfoCollectionName t) s

/-- The value most recently passed to `SetTotalThreads` in a log, if any. -/
def lastTotal (calls : List Call) : Option Int :=
  calls.foldl (fun acc c => match c with
    | .SetTotalThreads n => some n
    | _ => acc) none

/-- A call that is no call of the progress notifier. -/
def Call.quiet : Call → Bool
  | .Start => false
  | .SetTotalThreads _ => false
  | .AddThread => false
  | .Finish => false
  | _ => true

/-- The reported total is in line with the backlog: the last value passed to
`SetTotalThreads` is `threadsTotal`, which is the size of the backlog plus the
number of `AddThread` calls; the backlog map holds every key once. -/
def Sync.totalOk (s : Sync) : Prop :=
  lastTotal s.calls = some s.threadsTotal ∧
  s.threadsTotal = (s.initialThreads.len : Int) + (countAddThread s.calls : Int) ∧
  (s.initialThreads.map Prod.fst).Nodup

/-- `Finish` has not been called, or it has been called once and the backlog is
empty. -/
def Sync.finishOk (s : Sync) : Prop :=
  countFinish s.calls = 0 ∨ (countFinish s.calls = 1 ∧ s.initialThreads = [])

/-- The state `s2` comes after `s1` in a session: the two invariants carry over
and the backlog has only lost entries. -/
def Sync.keeps (s1 s2 : Sync) : Prop :=
  (s1.totalOk → s2.totalOk) ∧ (s1.finishOk → s2.finishOk) ∧
    List.Sublist s2.initialThreads s1.initialThreads

/-- The backlog of the session with two threads. -/
def backlogAB : GoMap ID threadInfo := [(threadA, infoOf threadA), (threadB, infoOf threadB)]

/-- The state in which `Listen` leaves the session with the backlog `backlogAB`. -/
def sessionAB : Sync :=
  { initialThreads := backlogAB, threadsTotal := 2, pending := [],
    calls := [Call.SetTotalThreads 2] }

/-- Collaborators of the router that know no record and no thread. -/
def emptyRouterEnv : RouterEnv :=
  { FindByID := fun _ => .error (Error.other 0), Decode := fun _ => .error (Error.other 0),
    GetThread := fun _ => ⟨ID.Undef, some Error.ErrThreadNotFound⟩,
    DeleteObject := fun _ => some Error.ErrThreadNotFound }

/-- The session `remoteFirst`, with a routed Delete action after its second
event. -/
def remoteFirstSteps : List SessionStep :=
  [SessionStep.task (Event.process threadA (infoOf threadA)
     ⟨ID.Undef, some Error.ErrThreadNotFound⟩),
   SessionStep.task (Event.returned threadA (infoOf threadA) none),
   SessionStep.route emptyRouterEnv
     { Collection := "threadsbafw".toList, Type_ := ActionDelete, ID := "bafC".toList },
   SessionStep.task (Event.process threadB (infoOf threadB) ⟨threadB, none⟩)]

/-! ## Notions used to state the result of `Init` -/

/-- The collection name that an option supplies. -/
def ThreadProcessorOption.name : ThreadProcessorOption → GoString
  | .WithCollection collectionName _ => collectionName
  | .WithCollectionAndActionProcessor collectionName _ _ => collectionName

/-- The collection names supplied through a list of options. -/
def suppliedNames (options : List ThreadProcessorOption) : List GoString :=
  options.map ThreadProcessorOption.name

/-- The handler supplied for a collection name through a list of options: the
handler of the last `WithCollectionAndActionProcessor` option for that name, if
there is one. -/
def suppliedHandler (options : List ThreadProcessorOption) (name : GoString) : Option Handler :=
  options.foldl (fun acc opt => match opt with
    | .WithCollectionAndActionProcessor collectionName _ actionProcessor =>
      if collectionName = name then some actionProcessor else acc
    | _ => acc) none

/-! ## Facts about the Go maps and strings -/

theorem GoMap.delete_cons {K V : Type} [DecidableEq K] (e : K × V) (m : GoMap K V) (k : K) :
    GoMap.delete (e :: m) k = if e.1 = k then GoMap.delete m k else e :: GoMap.delete m k := by
  by_cases h : e.1 = k <;> simp [GoMap.delete, List.filter_cons, h]

theorem GoMap.get?_delete_self {K V : Type} [DecidableEq K] (m : GoMap K V) (k : K) :
    GoMap.get? (GoMap.delete m k) k = none := by
  induction m with
  | nil => rfl
  | cons e m ih =>
    obtain ⟨k1, v⟩ := e
    rw [GoMap.delete_cons]
    by_cases h : k1 = k
    · simpa [h] using ih
    · simpa [h, GoMap.get?] using ih

theorem GoMap.get?_delete_ne {K V : Type} [DecidableEq K] (m : GoMap K V) (k k2 : K)
    (hne : k2 ≠ k) : GoMap.get? (GoMap.delete m k) k2 = GoMap.get? m k2 := by
  induction m with
  | nil => rfl
  | cons e m ih =>
    obtain ⟨k1, v⟩ := e
    rw [GoMap.delete_cons]
    by_cases h : k1 = k
    · subst h
      have h2 : ¬ k1 = k2 := fun h3 => hne h3.symm
      simpa [GoMap.get?, h2] using ih
    · by_cases h3 : k1 = k2
      · subst h3
        simp [h, GoMap.get?]
      · simpa [h, GoMap.get?, h3] using ih

theorem GoMap.get?_set_self {K V : Type} [DecidableEq K] (m : GoMap K V) (k : K) (v : V) :
    GoMap.get? (GoMap.set m k v) k = some v := by
  simp [GoMap.set, GoMap.get?]

theorem GoMap.get?_set_ne {K V : Type} [DecidableEq K] (m : GoMap K V) (k k2 : K) (v : V)
    (hne : k2 ≠ k) : GoMap.get? (GoMap.set m k v) k2 = GoMap.get? m k2 := by
  have h : k ≠ k2 := fun h => hne h.symm
  simp [GoMap.set, GoMap.get?, h, GoMap.get?_delete_ne m k k2 hne]

theorem GoMap.delete_of_get?_none {K V : Type} [DecidableEq K] (m : GoMap K V) (k : K)
    (h : GoMap.get? m k = none) : GoMap.delete m k = m := by
  induction m with
  | nil => rfl
  | cons e m ih =>
    obtain ⟨k1, v⟩ := e
    rw [GoMap.delete_cons]
    by_cases h1 : k1 = k
    · simp [GoMap.get?, h1] at h
    · simp only [GoMap.get?, h1, if_false] at h
      simp [h1, ih h]

theorem ID.String_of_ne_Undef (i : ID) (h : i ≠ ID.Undef) : i.String = some i.str := by
  simp [ID.String, h]

theorem ID.str_ne_nil (i : ID) (h : i ≠ ID.Undef) : i.str ≠ [] := by
  intro h1
  apply h
  cases i
  simp_all [ID.Undef]

theorem cutBefore_append_iff (name tid : GoString) (h : tid ≠ []) :
    cutBefore (name ++ tid) tid = name ↔
      ∀ k, k < name.length → ¬ tid <+: (name ++ tid).drop k := by
  induction name with
  | nil =>
    obtain ⟨c, cs, rfl⟩ := List.exists_cons_of_ne_nil h
    have hp : (c :: cs).isPrefixOf (c :: cs) = true :=
      List.isPrefixOf_iff_prefix.mpr (List.prefix_refl _)
    simp [cutBefore, hp]
  | cons a name ih =>
    constructor
    · intro hcut k hk
      by_cases hp : tid.isPrefixOf (a :: (name ++ tid)) = true
      · simp [cutBefore, hp] at hcut
      · have hcut2 : cutBefore (name ++ tid) tid = name := by
          simpa [cutBefore, hp] using hcut
        cases k with
        | zero =>
          intro hpre
          exact hp (List.isPrefixOf_iff_prefix.mpr (by simpa using hpre))
        | succ j =>
          have := (ih.mp hcut2) j (by simpa using hk)
          simpa using this
    · intro hall
      have h0 : ¬ tid <+: (a :: name ++ tid).drop 0 := hall 0 (by simp)
      have hp : ¬ tid.isPrefixOf (a :: (name ++ tid)) = true := by
        intro hpre
        exact h0 (by simpa using List.isPrefixOf_iff_prefix.mp hpre)
      have hrest : cutBefore (name ++ tid) tid = name := by
        apply ih.mpr
        intro k hk
        have := hall (k + 1) (by simpa using hk)
        simpa using this
      simp [cutBefore, hp, hrest]

/-! ## The collection registry -/

/-- C7, counterexample: for the logical name `bafkdocs` and the thread-id string
`bafk`, the full name that registration builds is `bafkdocsbafk`, and the prefix
that the router computes from it is the empty string, not the logical name. -/
theorem C7_counterexample :
    ¬ (∀ name tid : GoString, tid ≠ [] → splitFirst (name ++ tid) tid = name) := by
  intro h
  have := h "bafkdocs".toList "bafk".toList (by decide)
  revert this
  decide

/-- C7, amended: for every logical collection name and every non-empty thread-id
string, the prefix that the router computes from the full name `name ++ tid` is
`name` exactly when the thread-id string does not occur in the full name at an
offset in front of the appended suffix. -/
theorem C7_splitFirst_fullName (name tid : GoString) (h : tid ≠ []) :
    splitFirst (name ++ tid) tid = name ↔
      ∀ k, k < name.length → ¬ tid <+: (name ++ tid).drop k := by
  simp only [splitFirst, h, if_false]
  exact cutBefore_append_iff name tid h

/-- C7, witness: the name `docs` under the thread-id string `bafk`. -/
theorem C7_splitFirst_fullName_witness :
    splitFirst ("docs".toList ++ "bafk".toList) "bafk".toList = "docs".toList :=
  (C7_splitFirst_fullName "docs".toList "bafk".toList (by decide)).mpr (by decide)

theorem GoMap.delete_set_self {K V : Type} [DecidableEq K] (m : GoMap K V) (k : K) (v : V) :
    GoMap.delete (GoMap.set m k v) k = GoMap.delete m k := by
  have h : GoMap.get? (GoMap.delete m k) k = none := GoMap.get?_delete_self m k
  simp [GoMap.set, GoMap.delete_cons, GoMap.delete_of_get?_none _ _ h]

theorem GoMap.set_set_self {K V : Type} [DecidableEq K] (m : GoMap K V) (k : K) (v : V) :
    GoMap.set (GoMap.set m k v) k v = GoMap.set m k v := by
  show (k, v) :: GoMap.delete (GoMap.set m k v) k = (k, v) :: GoMap.delete m k
  rw [GoMap.delete_set_self]

/-- What a successful `AddCollectionWithPrefix` has done: the collection was found
in the store, or created by one request; in both cases the store holds it under
the full name and the registry holds it under the prefix. -/
theorem AddCollectionWithPrefix_ok (t t1 : threadProcessor) (pfx : GoString) (schema : Schema)
    (store : StoreOracle) (c : Collection)
    (h : AddCollectionWithPrefix t pfx schema store = some (.ok c, t1)) :
    ∃ d d1 m, t.db = some d ∧ t.threadId ≠ ID.Undef ∧ t.collections = some m ∧
      t1 = { t with db := some d1, collections := some (m.set pfx c) } ∧
      d1.GetCollection (pfx ++ t.threadId.str) = some c ∧
      (d1 = d ∨ d1.newCollectionCalls =
        d.newCollectionCalls ++ [{ Name := pfx ++ t.threadId.str, Schema := schema }]) := by
  by_cases hid : t.threadId = ID.Undef
  · simp [AddCollectionWithPrefix, ID.String, hid] at h
  · cases hdb : t.db with
    | none => simp [AddCollectionWithPrefix, ID.String, hid, addCollection, hdb] at h
    | some d =>
      cases hget : d.GetCollection (pfx ++ t.threadId.str) with
      | some c1 =>
        cases hm : t.collections with
        | none => simp [AddCollectionWithPrefix, ID.String, hid, addCollection, hdb, hget, hm] at h
        | some m =>
          simp only [AddCollectionWithPrefix, ID.String, hid, addCollection, hdb, hget, hm,
            if_false, Option.some.injEq, Prod.mk.injEq, Except.ok.injEq] at h
          obtain ⟨hc, ht⟩ := h
          subst hc
          refine ⟨d, d, m, rfl, hid, rfl, ?_, hget, Or.inl rfl⟩
          rw [← ht]
      | none =>
        cases hst : store { Name := pfx ++ t.threadId.str, Schema := schema } with
        | error e =>
          simp [AddCollectionWithPrefix, ID.String, hid, addCollection, hdb, hget,
            DB.NewCollection, hst] at h
        | ok c1 =>
          cases hm : t.collections with
          | none =>
            simp [AddCollectionWithPrefix, ID.String, hid, addCollection, hdb, hget,
              DB.NewCollection, hst, hm] at h
          | some m =>
            simp only [AddCollectionWithPrefix, ID.String, hid, addCollection, hdb, hget,
              DB.NewCollection, hst, hm, if_false, Option.some.injEq, Prod.mk.injEq,
              Except.ok.injEq] at h
            obtain ⟨hc, ht⟩ := h
            subst hc
            refine ⟨d, _, m, rfl, hid, rfl, ht.symm, ?_, Or.inr rfl⟩
            simp [DB.GetCollection, GoMap.get?_set_self]

/-- C8: when a registration of a logical name has succeeded with handle `c`, the
store holds `c` under the full name (prefix + thread id) after at most one create
request, `GetCollectionWithPrefix` returns `c`, and a second registration of the
same name (whatever the schema and whatever the store would answer to a create
request) returns the same handle `c` and leaves the processor, its store handle
and the store's log of create requests exactly as they were: the store's create
operation is not called again and `GetCollectionWithPrefix` still returns `c`. -/
theorem C8_register_twice (t t1 : threadProcessor) (pfx : GoString) (schema schema2 : Schema)
    (store store2 : StoreOracle) (c : Collection)
    (h : AddCollectionWithPrefix t pfx schema store = some (.ok c, t1)) :
    GetCollectionWithPrefix t1 pfx = some c ∧
    AddCollectionWithPrefix t1 pfx schema2 store2 = some (.ok c, t1) ∧
    ∃ d d1, t.db = some d ∧ t1.db = some d1 ∧
      d1.GetCollection (pfx ++ t.threadId.str) = some c ∧
      d1.newCollectionCalls.length ≤ d.newCollectionCalls.length + 1 := by
  obtain ⟨d, d1, m, hdb, hid, hm, ht1, hget, hcalls⟩ :=
    AddCollectionWithPrefix_ok t t1 pfx schema store c h
  subst ht1
  refine ⟨?_, ?_, d, d1, hdb, rfl, hget, ?_⟩
  · simp [GetCollectionWithPrefix, readMap, GoMap.get?_set_self]
  · simp [AddCollectionWithPrefix, ID.String, hid, addCollection, hget, GoMap.set_set_self]
  · rcases hcalls with h1 | h1
    · subst h1
      omega
    · simp [h1]

/-- C8, witness: registering `docs` on a processor of thread `bafk` whose store is
empty and answers the create request with the collection at address 7. -/
theorem C8_register_twice_witness :
    GetCollectionWithPrefix
        { db := some { collections := [("docsbafk".toList, ⟨7⟩)],
                       newCollectionCalls := [{ Name := "docsbafk".toList, Schema := 1 }] },
          threadsCollection := none, collections := some [("docs".toList, ⟨7⟩)],
          actionProcessors := none, isAccountProcessor := false,
          threadId := ⟨"bafk".toList⟩ } "docs".toList = some ⟨7⟩ :=
  (C8_register_twice
    { db := some { collections := [], newCollectionCalls := [] }, threadsCollection := none,
      collections := some [], actionProcessors := none, isAccountProcessor := false,
      threadId := ⟨"bafk".toList⟩ }
    _ "docs".toList 1 2 (fun _ => .ok ⟨7⟩) (fun _ => .error (Error.other 0)) ⟨7⟩
    rfl).1

/-- C9: when the store has no collection under the full name and answers the
create request with the error `e`, `AddCollectionWithPrefix` returns `e` itself,
and the processor keeps its registry map (so `GetCollectionWithPrefix` answers as
before for every prefix), its thread id, its thread-info collection and its
handler map; the store has only logged the request. -/
theorem C9_failed_registration (t : threadProcessor) (d : DB) (pfx : GoString)
    (schema : Schema) (store : StoreOracle) (e : Error)
    (hdb : t.db = some d) (hid : t.threadId ≠ ID.Undef)
    (habsent : d.GetCollection (pfx ++ t.threadId.str) = none)
    (hfail : store { Name := pfx ++ t.threadId.str, Schema := schema } = .error e) :
    ∃ t1, AddCollectionWithPrefix t pfx schema store = some (.error e, t1) ∧
      t1.collections = t.collections ∧
      (∀ p, GetCollectionWithPrefix t1 p = GetCollectionWithPrefix t p) ∧
      t1.threadId = t.threadId ∧ t1.threadsCollection = t.threadsCollection ∧
      t1.actionProcessors = t.actionProcessors ∧
      ∃ d1, t1.db = some d1 ∧ d1.collections = d.collections := by
  refine ⟨{ t with db := some { d with newCollectionCalls := d.newCollectionCalls ++
    [{ Name := pfx ++ t.threadId.str, Schema := schema }] } }, ?_, rfl, ?_, rfl, rfl, rfl,
    _, rfl, rfl⟩
  · simp [AddCollectionWithPrefix, ID.String, hid, addCollection, hdb, habsent,
      DB.NewCollection, hfail]
  · intro p
    simp [GetCollectionWithPrefix]

/-- C9, witness: the store of thread `bafk` refuses to create `docsbafk`. -/
theorem C9_failed_registration_witness :
    ∃ t1, AddCollectionWithPrefix
        { db := some { collections := [], newCollectionCalls := [] }, threadsCollection := none,
          collections := some [("notes".toList, ⟨3⟩)], actionProcessors := none,
          isAccountProcessor := false, threadId := ⟨"bafk".toList⟩ }
        "docs".toList 1 (fun _ => .error (Error.other 5)) = some (.error (Error.other 5), t1) ∧
      t1.collections = some [("notes".toList, ⟨3⟩)] := by
  obtain ⟨t1, h1, h2, -⟩ := C9_failed_registration
    { db := some { collections := [], newCollectionCalls := [] }, threadsCollection := none,
      collections := some [("notes".toList, ⟨3⟩)], actionProcessors := none,
      isAccountProcessor := false, threadId := ⟨"bafk".toList⟩ }
    { collections := [], newCollectionCalls := [] } "docs".toList 1
    (fun _ => .error (Error.other 5)) (Error.other 5) rfl (by decide) (by decide) rfl
  exact ⟨t1, h1, h2⟩

/-! ## Initialisation -/

/-- C10: `Init` with the undefined thread id on a processor whose store handle is
nil returns the undefined-thread error for every list of options, makes no call to
a collaborator (neither `GetThread` nor `NewDB`: the store is not opened), and
leaves the processor as it was. -/
theorem C10_Init_undefined (ThreadInfoCollectionName : GoString) (env : InitEnv)
    (t : threadProcessor) (options : List ThreadProcessorOption) (h : t.db = none) :
    Init ThreadInfoCollectionName env t ID.Undef options =
      some (some Error.undefinedThread, t, []) := by
  simp [Init, h]

/-- C10, witness: a fresh processor and one option. -/
theorem C10_Init_undefined_witness :
    Init "threads".toList
        { GetThread := fun _ => .ok [], NewDB := fun _ _ => .ok ⟨[], []⟩,
          store := fun _ => .ok ⟨0⟩, rangeOrder := fun m => m }
        (NewThreadProcessor false) ID.Undef
        [ThreadProcessorOption.WithCollection "docs".toList 1] =
      some (some Error.undefinedThread, NewThreadProcessor false, []) :=
  C10_Init_undefined _ _ _ _ rfl

/-! ## Resolution tasks -/

theorem isInitialThread_delete (s : Sync) (tid : ID) (m : GoMap ID threadInfo)
    (hm : m = s.initialThreads.delete tid) (n : Int) (p : List (ID × threadInfo))
    (calls : List Call) :
    isInitialThread { initialThreads := m, threadsTotal := n, pending := p, calls := calls } tid
      = false := by
  subst hm
  simp [isInitialThread, GoMap.get?_delete_self]

theorem len_ne_zero_of_isInitialThread (s : Sync) (tid : ID)
    (h : isInitialThread s tid = true) : s.initialThreads.len ≠ 0 := by
  intro h0
  have hnil : s.initialThreads = [] := List.length_eq_zero.mp h0
  simp [isInitialThread, hnil, GoMap.get?] at h

/-- C1, failing execution: the backlog is `threadA`, `threadB` (N = 2, M = 1).
When the resolution of `threadA` returns before `processThread` reaches the local
echo `threadB`, the session reports the total 2, calls `AddThread` once, and ends
with an empty backlog and no pending goroutine, but `Finish` is never called.
When the same resolution returns last, `Finish` is called once. -/
theorem C1_finish_never_called :
    ∃ s0 : Sync,
      Listen workspaceProcessor [(threadA, infoOf threadA), (threadB, infoOf threadB)]
        none false = some (.ok s0) ∧
      s0.run remoteFirst =
        { initialThreads := [], threadsTotal := 1, pending := [],
          calls := [Call.SetTotalThreads 2, Call.GetThread threadA,
            Call.processNewExternalThreadUntilSuccess threadA (infoOf threadA),
            Call.AddThread, Call.GetThread threadB, Call.SetTotalThreads 1] } ∧
      countAddThread (s0.run remoteFirst).calls = 1 ∧
      countFinish (s0.run remoteFirst).calls = 0 ∧
      (s0.run remoteLast).initialThreads = [] ∧
      countAddThread (s0.run remoteLast).calls = 1 ∧
      countFinish (s0.run remoteLast).calls = 1 := by
  refine ⟨_, rfl, ?_, ?_, ?_, ?_, ?_, ?_⟩ <;> decide

/-- C3: when `GetThread` reports thread-not-found (with the zero info that comes
with an error), `processThread` touches neither the backlog nor the notifier and
launches exactly one goroutine, that is exactly one call of
`processNewExternalThreadUntilSuccess` for the thread.  When that call succeeds in
a state where the thread is in the backlog, the thread is deleted from the
backlog, `AddThread` is called exactly once, and `Finish` is called after it
exactly when the backlog is empty after the deletion; when it succeeds and the
thread is not in the backlog, and when it returns an error, nothing changes. -/
theorem C3_remote_resolution (s : Sync) (tid : ID) (ti : threadInfo) (r : FetchResult)
    (herr : r.err = some Error.ErrThreadNotFound) (hinfo : r.infoID = ID.Undef) :
    processThread s tid ti r =
        { s with pending := s.pending ++ [(tid, ti)],
                 calls := s.calls ++
                   [Call.GetThread tid, Call.processNewExternalThreadUntilSuccess tid ti] } ∧
    ∀ s2 : Sync,
      (isInitialThread s2 tid = true →
        processThreadGo s2 tid none =
          { s2 with initialThreads := s2.initialThreads.delete tid,
                    calls := s2.calls ++ Call.AddThread ::
                      (if (s2.initialThreads.delete tid).len = 0 then [Call.Finish] else []) } ∧
        isInitialThread (processThreadGo s2 tid none) tid = false) ∧
      (isInitialThread s2 tid = false → processThreadGo s2 tid none = s2) ∧
      (∀ e, processThreadGo s2 tid (some e) = s2) := by
  refine ⟨?_, fun s2 => ⟨fun hin => ?_, fun hout => ?_, fun e => rfl⟩⟩
  · simp [processThread, herr, hinfo]
  · have hlen := len_ne_zero_of_isInitialThread s2 tid hin
    have heq : processThreadGo s2 tid none =
        { s2 with initialThreads := s2.initialThreads.delete tid,
                  calls := s2.calls ++ Call.AddThread ::
                    (if (s2.initialThreads.delete tid).len = 0 then [Call.Finish] else []) } := by
      by_cases h0 : (s2.initialThreads.delete tid).len = 0 <;>
        simp [processThreadGo, hlen, hin, h0]
    refine ⟨heq, ?_⟩
    rw [heq]
    exact isInitialThread_delete s2 tid _ rfl _ _ _
  · by_cases h0 : s2.initialThreads.len = 0 <;> simp [processThreadGo, hout, h0]

/-- C3, witness: thread `bafA` of the backlog `bafA`, `bafB` is not found. -/
theorem C3_remote_resolution_witness :
    processThread
        { initialThreads := [(⟨"bafA".toList⟩, ⟨"bafA".toList, [], []⟩),
            (⟨"bafB".toList⟩, ⟨"bafB".toList, [], []⟩)],
          threadsTotal := 2, pending := [], calls := [Call.SetTotalThreads 2] }
        ⟨"bafA".toList⟩ ⟨"bafA".toList, [], []⟩ ⟨ID.Undef, some Error.ErrThreadNotFound⟩ =
      { initialThreads := [(⟨"bafA".toList⟩, ⟨"bafA".toList, [], []⟩),
            (⟨"bafB".toList⟩, ⟨"bafB".toList, [], []⟩)],
        threadsTotal := 2, pending := [(⟨"bafA".toList⟩, ⟨"bafA".toList, [], []⟩)],
        calls := [Call.SetTotalThreads 2, Call.GetThread ⟨"bafA".toList⟩,
          Call.processNewExternalThreadUntilSuccess ⟨"bafA".toList⟩ ⟨"bafA".toList, [], []⟩] } :=
  (C3_remote_resolution _ _ _ _ rfl rfl).1

/-- C4: when `GetThread` returns a defined thread, or fails with an error other
than thread-not-found, `processThread` deletes the thread from the backlog when it
is there (reporting the decremented total) and changes nothing but the log of the
fetch when it is not; it launches no goroutine (no call of
`processNewExternalThreadUntilSuccess`) and calls neither `AddThread` nor
`Finish`; the thread is out of the backlog afterwards, so a second run only logs
its fetch. -/
theorem C4_local_echo_or_error (s : Sync) (tid : ID) (ti : threadInfo) (r : FetchResult)
    (h : (r.err = none ∧ r.infoID ≠ ID.Undef) ∨
      (∃ e, r.err = some e ∧ e ≠ Error.ErrThreadNotFound)) :
    (isInitialThread s tid = true →
      processThread s tid ti r =
        { s with initialThreads := s.initialThreads.delete tid,
                 threadsTotal := s.threadsTotal - 1,
                 calls := s.calls ++
                   [Call.GetThread tid, Call.SetTotalThreads (s.threadsTotal - 1)] }) ∧
    (isInitialThread s tid = false →
      processThread s tid ti r = { s with calls := s.calls ++ [Call.GetThread tid] }) ∧
    (processThread s tid ti r).initialThreads = s.initialThreads.delete tid ∧
    (processThread s tid ti r).pending = s.pending ∧
    countAddThread (processThread s tid ti r).calls = countAddThread s.calls ∧
    countFinish (processThread s tid ti r).calls = countFinish s.calls ∧
    isInitialThread (processThread s tid ti r) tid = false ∧
    processThread (processThread s tid ti r) tid ti r =
      { processThread s tid ti r with
        calls := (processThread s tid ti r).calls ++ [Call.GetThread tid] } := by
  have hrem : processThread s tid ti r =
      removeElement { s with calls := s.calls ++ [Call.GetThread tid] } tid := by
    rcases h with ⟨h1, h2⟩ | ⟨e, h1, h2⟩
    · simp [processThread, h1, h2]
    · simp [processThread, h1, h2]
  have hin : isInitialThread s tid = true →
      processThread s tid ti r =
        { s with initialThreads := s.initialThreads.delete tid,
                 threadsTotal := s.threadsTotal - 1,
                 calls := s.calls ++
                   [Call.GetThread tid, Call.SetTotalThreads (s.threadsTotal - 1)] } := by
    intro hi
    have hi2 : isInitialThread { s with calls := s.calls ++ [Call.GetThread tid] } tid = true := hi
    rw [hrem]
    simp [removeElement, hi2]
  have hout : isInitialThread s tid = false →
      processThread s tid ti r = { s with calls := s.calls ++ [Call.GetThread tid] } := by
    intro hi
    have hi2 : isInitialThread { s with calls := s.calls ++ [Call.GetThread tid] } tid = false := hi
    rw [hrem]
    simp [removeElement, hi2]
  have hafter : isInitialThread (processThread s tid ti r) tid = false := by
    cases hi : isInitialThread s tid with
    | true =>
      rw [hin hi]
      exact isInitialThread_delete s tid _ rfl _ _ _
    | false =>
      rw [hout hi]
      exact hi
  refine ⟨hin, hout, ?_, ?_, ?_, ?_, hafter, ?_⟩
  · cases hi : isInitialThread s tid with
    | true => rw [hin hi]
    | false =>
      rw [hout hi]
      have hnone : s.initialThreads.get? tid = none := by
        simpa [isInitialThread] using hi
      exact (GoMap.delete_of_get?_none _ _ hnone).symm
  · cases hi : isInitialThread s tid with
    | true => rw [hin hi]
    | false => rw [hout hi]
  · cases hi : isInitialThread s tid with
    | true =>
      rw [hin hi]
      simp [countAddThread, List.count_append]
    | false =>
      rw [hout hi]
      simp [countAddThread, List.count_append]
  · cases hi : isInitialThread s tid with
    | true =>
      rw [hin hi]
      simp [countFinish, List.count_append]
    | false =>
      rw [hout hi]
      simp [countFinish, List.count_append]
  · have hrem2 : processThread (processThread s tid ti r) tid ti r =
        removeElement { processThread s tid ti r with
          calls := (processThread s tid ti r).calls ++ [Call.GetThread tid] } tid := by
      rcases h with ⟨h1, h2⟩ | ⟨e, h1, h2⟩
      · simp [processThread, h1, h2]
      · simp [processThread, h1, h2]
    have hi2 : isInitialThread { processThread s tid ti r with
        calls := (processThread s tid ti r).calls ++ [Call.GetThread tid] } tid = false := hafter
    rw [hrem2]
    simp [removeElement, hi2]

/-- C4, witness: thread `bafB` of the backlog `bafA`, `bafB` is a local echo. -/
theorem C4_local_echo_or_error_witness :
    (processThread
        { initialThreads := [(⟨"bafA".toList⟩, ⟨"bafA".toList, [], []⟩),
            (⟨"bafB".toList⟩, ⟨"bafB".toList, [], []⟩)],
          threadsTotal := 2, pending := [], calls := [Call.SetTotalThreads 2] }
        ⟨"bafB".toList⟩ ⟨"bafB".toList, [], []⟩ ⟨⟨"bafB".toList⟩, none⟩).initialThreads =
      GoMap.delete [(⟨"bafA".toList⟩, ⟨"bafA".toList, [], []⟩),
            (⟨"bafB".toList⟩, ⟨"bafB".toList, [], []⟩)] ⟨"bafB".toList⟩ :=
  (C4_local_echo_or_error _ _ _ _ (Or.inl ⟨rfl, by decide⟩)).2.2.1

/-! ## The action router -/

theorem handlerCalls_append (a b : List Call) :
    handlerCalls (a ++ b) = handlerCalls a ++ handlerCalls b := by
  simp [handlerCalls, List.filter_append]

theorem removeElement_handlerCalls (s : Sync) (tid : ID) :
    handlerCalls (removeElement s tid).calls = handlerCalls s.calls := by
  unfold removeElement
  split
  · simp [handlerCalls_append, handlerCalls]
  · rfl

theorem processThread_handlerCalls (s : Sync) (tid : ID) (ti : threadInfo) (r : FetchResult) :
    handlerCalls (processThread s tid ti r).calls = handlerCalls s.calls := by
  unfold processThread
  split
  · rw [removeElement_handlerCalls]
    simp [handlerCalls_append, handlerCalls]
  · split
    · rw [removeElement_handlerCalls]
      simp [handlerCalls_append, handlerCalls]
    · simp [handlerCalls_append, handlerCalls]

theorem cutBefore_prefix (s sep : GoString) : cutBefore s sep <+: s := by
  induction s with
  | nil => simp [cutBefore]
  | cons c cs ih =>
    by_cases h : sep.isPrefixOf (c :: cs) = true
    · simp [cutBefore, h]
    · simpa [cutBefore, h] using ih

/-- An action whose collection name does not begin with the reserved name is
only looked up in the registry. -/
theorem routeAction_user (ThreadInfoCollectionName : GoString) (t : threadProcessor)
    (env : RouterEnv) (hid : t.threadId ≠ ID.Undef) (s : Sync) (action : Action)
    (hpre : HasPrefix action.Collection ThreadInfoCollectionName = false) :
    routeAction ThreadInfoCollectionName t env s action =
      some { s with calls := s.calls ++ (registeredLaunch t action).toList } := by
  unfold routeAction registeredLaunch
  simp only [hpre, ID.String, hid, Bool.not_false, if_true, if_false]
  split <;> simp_all

/-- An action whose collection name begins with the reserved name is routed
without a look at the registry, and launches no handler. -/
theorem routeAction_reserved (ThreadInfoCollectionName : GoString) (t : threadProcessor)
    (env : RouterEnv) (s : Sync) (action : Action)
    (hpre : HasPrefix action.Collection ThreadInfoCollectionName = true) :
    (∀ t2 : threadProcessor, t2.threadsCollection = t.threadsCollection →
      routeAction ThreadInfoCollectionName t2 env s action =
        routeAction ThreadInfoCollectionName t env s action) ∧
    (∀ s1, routeAction ThreadInfoCollectionName t env s action = some s1 →
      handlerCalls s1.calls = handlerCalls s.calls) := by
  constructor
  · intro t2 h2
    simp [routeAction, hpre, h2]
  · intro s1 h1
    simp only [routeAction, hpre, Bool.not_true, Bool.false_eq_true, if_false] at h1
    split at h1
    · cases h1
      simp [removeThread, handlerCalls_append, handlerCalls]
    · split at h1
      · cases h1
        rfl
      · split at h1
        · cases h1
        · split at h1
          · cases h1
            simp [handlerCalls_append, handlerCalls]
          · split at h1
            · cases h1
              simp [handlerCalls_append, handlerCalls]
            · split at h1
              · cases h1
                simp [handlerCalls_append, handlerCalls]
              · cases h1
                rw [processThread_handlerCalls]
                simp [handlerCalls_append, handlerCalls]

theorem handlerCalls_registeredLaunch (t : threadProcessor) (action : Action) :
    handlerCalls (registeredLaunch t action).toList = (registeredLaunch t action).toList := by
  unfold registeredLaunch
  split <;> simp [handlerCalls]

theorem routeAction_unmatched (ThreadInfoCollectionName : GoString) (t : threadProcessor)
    (env : RouterEnv) (hid : t.threadId ≠ ID.Undef) (s : Sync) (action : Action)
    (hu : unmatched ThreadInfoCollectionName t action = true) :
    routeAction ThreadInfoCollectionName t env s action = some s := by
  simp only [unmatched, Bool.and_eq_true, Bool.not_eq_true', Option.isNone_iff_eq_none] at hu
  rw [routeAction_user ThreadInfoCollectionName t env hid s action hu.1, hu.2]
  simp

theorem routeAction_isSome (ThreadInfoCollectionName : GoString) (t : threadProcessor)
    (env : RouterEnv) (hid : t.threadId ≠ ID.Undef) (hcoll : t.threadsCollection ≠ none)
    (s : Sync) (action : Action) :
    ∃ s1, routeAction ThreadInfoCollectionName t env s action = some s1 := by
  cases hpre : HasPrefix action.Collection ThreadInfoCollectionName with
  | false => exact ⟨_, routeAction_user ThreadInfoCollectionName t env hid s action hpre⟩
  | true =>
    obtain ⟨c, hc⟩ := Option.ne_none_iff_exists'.mp hcoll
    simp only [routeAction, hpre, hc, Bool.not_true, Bool.false_eq_true, if_false]
    split
    · exact ⟨_, rfl⟩
    · split
      · exact ⟨_, rfl⟩
      · split
        · exact ⟨_, rfl⟩
        · split
          · exact ⟨_, rfl⟩
          · split <;> exact ⟨_, rfl⟩

theorem processThreadActions_isSome (ThreadInfoCollectionName : GoString) (t : threadProcessor)
    (env : RouterEnv) (hid : t.threadId ≠ ID.Undef) (hcoll : t.threadsCollection ≠ none)
    (actions : List Action) (s : Sync) :
    ∃ s1, processThreadActions ThreadInfoCollectionName t env s actions = some s1 := by
  induction actions generalizing s with
  | nil => exact ⟨s, rfl⟩
  | cons a rest ih =>
    obtain ⟨s1, h1⟩ := routeAction_isSome ThreadInfoCollectionName t env hid hcoll s a
    simp only [processThreadActions, h1]
    exact ih s1

theorem processThreadActions_filter (ThreadInfoCollectionName : GoString) (t : threadProcessor)
    (env : RouterEnv) (hid : t.threadId ≠ ID.Undef) (actions : List Action) (s : Sync) :
    processThreadActions ThreadInfoCollectionName t env s
        (actions.filter (fun a => !unmatched ThreadInfoCollectionName t a)) =
      processThreadActions ThreadInfoCollectionName t env s actions := by
  induction actions generalizing s with
  | nil => rfl
  | cons a rest ih =>
    cases hu : unmatched ThreadInfoCollectionName t a with
    | true =>
      simp only [List.filter_cons, hu, Bool.not_true, Bool.false_eq_true, if_false,
        processThreadActions, routeAction_unmatched ThreadInfoCollectionName t env hid s a hu]
      exact ih s
    | false =>
      simp only [List.filter_cons, hu, Bool.not_false, if_true, processThreadActions]
      cases routeAction ThreadInfoCollectionName t env s a with
      | none => rfl
      | some s1 => exact ih s1

theorem processThreadActions_handlerCalls (ThreadInfoCollectionName : GoString)
    (t : threadProcessor) (env : RouterEnv) (hid : t.threadId ≠ ID.Undef)
    (actions : List Action) (s s1 : Sync)
    (h : processThreadActions ThreadInfoCollectionName t env s actions = some s1) :
    handlerCalls s1.calls = handlerCalls s.calls ++
      (actions.filter (fun a => !HasPrefix a.Collection ThreadInfoCollectionName)).filterMap
        (registeredLaunch t) := by
  induction actions generalizing s with
  | nil =>
    simp only [processThreadActions, Option.some.injEq] at h
    subst h
    simp
  | cons a rest ih =>
    simp only [processThreadActions] at h
    cases hr : routeAction ThreadInfoCollectionName t env s a with
    | none => simp [hr] at h
    | some s2 =>
      simp only [hr] at h
      rw [ih s2 h]
      cases hpre : HasPrefix a.Collection ThreadInfoCollectionName with
      | false =>
        rw [routeAction_user ThreadInfoCollectionName t env hid s a hpre] at hr
        simp only [Option.some.injEq] at hr
        subst hr
        simp only [handlerCalls_append, handlerCalls_registeredLaunch, List.filter_cons, hpre,
          Bool.not_false, if_true, List.filterMap_cons]
        cases registeredLaunch t a <;> simp
      | true =>
        rw [(routeAction_reserved ThreadInfoCollectionName t env s a hpre).2 s2 hr]
        simp [List.filter_cons, hpre]

/-- C5, counterexample: with the reserved name `threads`, thread id `bafk`, and a
collection and a handler registered under `threadsX`, a Delete action on the
collection `threadsXbafk` has the logical prefix `threadsX`, which is not the
reserved name and has a registered launch; the router nevertheless handles it as
a thread-discovery event: it issues a delete request and launches no handler. -/
theorem C5_counterexample :
    splitFirst "threadsXbafk".toList "bafk".toList = "threadsX".toList ∧
    "threadsX".toList ≠ "threads".toList ∧
    registeredLaunch
        { db := some { collections := [], newCollectionCalls := [] },
          threadsCollection := some ⟨1⟩,
          collections := some [("threads".toList, ⟨1⟩), ("threadsX".toList, ⟨2⟩)],
          actionProcessors := some [("threadsX".toList, ⟨9⟩)],
          isAccountProcessor := false, threadId := ⟨"bafk".toList⟩ }
        { Collection := "threadsXbafk".toList, Type_ := ActionDelete, ID := "rec1".toList } =
      some (Call.actionProcessor ⟨9⟩
        { Collection := "threadsXbafk".toList, Type_ := ActionDelete, ID := "rec1".toList } ⟨2⟩) ∧
    routeAction "threads".toList
        { db := some { collections := [], newCollectionCalls := [] },
          threadsCollection := some ⟨1⟩,
          collections := some [("threads".toList, ⟨1⟩), ("threadsX".toList, ⟨2⟩)],
          actionProcessors := some [("threadsX".toList, ⟨9⟩)],
          isAccountProcessor := false, threadId := ⟨"bafk".toList⟩ }
        { FindByID := fun _ => .error (Error.other 0), Decode := fun _ => .error (Error.other 0),
          GetThread := fun _ => ⟨ID.Undef, some Error.ErrThreadNotFound⟩,
          DeleteObject := fun _ => none }
        { initialThreads := [], threadsTotal := 0, pending := [], calls := [] }
        { Collection := "threadsXbafk".toList, Type_ := ActionDelete, ID := "rec1".toList } =
      some { initialThreads := [], threadsTotal := 0, pending := [],
             calls := [Call.DeleteObject "rec1".toList] } := by
  refine ⟨?_, ?_, ?_, ?_⟩ <;> decide

/-- A Delete action on a collection whose name begins with the reserved name
takes the removal path: one `DeleteObject` request. -/
theorem routeAction_delete (ThreadInfoCollectionName : GoString) (t : threadProcessor)
    (env : RouterEnv) (s : Sync) (action : Action)
    (hpre : HasPrefix action.Collection ThreadInfoCollectionName = true)
    (hdel : action.Type_ = ActionDelete) :
    routeAction ThreadInfoCollectionName t env s action =
      some { s with calls := s.calls ++ [Call.DeleteObject action.ID] } := by
  simp [routeAction, hpre, hdel, removeThread]

/-- An action of a type other than Create and Delete on a collection whose name
begins with the reserved name is dropped. -/
theorem routeAction_dropped (ThreadInfoCollectionName : GoString) (t : threadProcessor)
    (env : RouterEnv) (s : Sync) (action : Action)
    (hpre : HasPrefix action.Collection ThreadInfoCollectionName = true)
    (hdel : action.Type_ ≠ ActionDelete) (hcr : action.Type_ ≠ ActionCreate) :
    routeAction ThreadInfoCollectionName t env s action = some s := by
  simp [routeAction, hpre, hdel, hcr]

/-- A Create action on a collection whose name begins with the reserved name
takes the resolution path: the record is looked up and decoded, and unless the
thread is in the backlog `processThread` is called on it. -/
theorem routeAction_create (ThreadInfoCollectionName : GoString) (t : threadProcessor)
    (env : RouterEnv) (s : Sync) (action : Action)
    (hpre : HasPrefix action.Collection ThreadInfoCollectionName = true)
    (hcr : action.Type_ = ActionCreate) (hcoll : t.threadsCollection ≠ none) :
    (∀ e, env.FindByID action.ID = .error e →
      routeAction ThreadInfoCollectionName t env s action =
        some { s with calls := s.calls ++ [Call.FindByID action.ID] }) ∧
    (∀ ti e, env.FindByID action.ID = .ok ti → env.Decode ti.ID = .error e →
      routeAction ThreadInfoCollectionName t env s action =
        some { s with calls := s.calls ++ [Call.FindByID action.ID] }) ∧
    (∀ ti tid, env.FindByID action.ID = .ok ti → env.Decode ti.ID = .ok tid →
      routeAction ThreadInfoCollectionName t env s action =
        some (if isInitialThread s tid = true then
            { s with calls := s.calls ++ [Call.FindByID action.ID] }
          else processThread { s with calls := s.calls ++ [Call.FindByID action.ID] } tid ti
            (env.GetThread tid))) := by
  obtain ⟨c, hc⟩ := Option.ne_none_iff_exists'.mp hcoll
  have hcd : ¬ (ActionCreate = ActionDelete) := by decide
  refine ⟨fun e hf => ?_, fun ti e hf hd => ?_, fun ti tid hf hd => ?_⟩
  · simp [routeAction, hpre, hcr, hcd, hc, hf]
  · simp [routeAction, hpre, hcr, hcd, hc, hf, hd]
  · have hin : isInitialThread { s with calls := s.calls ++ [Call.FindByID action.ID] } tid =
        isInitialThread s tid := rfl
    cases hi : isInitialThread s tid with
    | true =>
      have hlen := len_ne_zero_of_isInitialThread s tid hi
      simp [routeAction, hpre, hcr, hcd, hc, hf, hd, hin, hi, hlen]
    | false =>
      simp [routeAction, hpre, hcr, hcd, hc, hf, hd, hin, hi]

/-- C5, amended: on a processor with a defined thread id, the router handles an
action as a thread-discovery event exactly when the action's collection name
begins with the reserved thread-info name (`strings.HasPrefix`).  An action whose
name does not begin with it is only looked up in the registry under its logical
prefix: the log gains the registered launch, if there is one, and nothing else
changes.  An action whose name begins with it is a thread-discovery event: a
Delete issues one `DeleteObject` request for its record id; a Create looks the
record up with `FindByID`, decodes the thread id and, unless the lookup or the
decoding fails or the thread is in the backlog, calls `processThread` on it; any
other type is dropped; in all of these the registry is not looked at (the result
is the same for every registry) and no handler is launched.  Every action whose
logical prefix equals the reserved name is such an event. -/
theorem C5_router_split (ThreadInfoCollectionName : GoString) (t : threadProcessor)
    (env : RouterEnv) (hid : t.threadId ≠ ID.Undef) (s : Sync) (action : Action) :
    (HasPrefix action.Collection ThreadInfoCollectionName = false →
      routeAction ThreadInfoCollectionName t env s action =
        some { s with calls := s.calls ++ (registeredLaunch t action).toList }) ∧
    (HasPrefix action.Collection ThreadInfoCollectionName = true →
      (∀ t2 : threadProcessor, t2.threadsCollection = t.threadsCollection →
        routeAction ThreadInfoCollectionName t2 env s action =
          routeAction ThreadInfoCollectionName t env s action) ∧
      (∀ s1, routeAction ThreadInfoCollectionName t env s action = some s1 →
        handlerCalls s1.calls = handlerCalls s.calls)) ∧
    (splitFirst action.Collection t.threadId.str = ThreadInfoCollectionName →
      HasPrefix action.Collection ThreadInfoCollectionName = true) ∧
    (HasPrefix action.Collection ThreadInfoCollectionName = true →
      (action.Type_ = ActionDelete →
        routeAction ThreadInfoCollectionName t env s action =
          some { s with calls := s.calls ++ [Call.DeleteObject action.ID] }) ∧
      (action.Type_ ≠ ActionDelete → action.Type_ ≠ ActionCreate →
        routeAction ThreadInfoCollectionName t env s action = some s) ∧
      (action.Type_ = ActionCreate → t.threadsCollection ≠ none →
        (∀ e, env.FindByID action.ID = .error e →
          routeAction ThreadInfoCollectionName t env s action =
            some { s with calls := s.calls ++ [Call.FindByID action.ID] }) ∧
        (∀ ti e, env.FindByID action.ID = .ok ti → env.Decode ti.ID = .error e →
          routeAction ThreadInfoCollectionName t env s action =
            some { s with calls := s.calls ++ [Call.FindByID action.ID] }) ∧
        (∀ ti tid, env.FindByID action.ID = .ok ti → env.Decode ti.ID = .ok tid →
          routeAction ThreadInfoCollectionName t env s action =
            some (if isInitialThread s tid = true then
                { s with calls := s.calls ++ [Call.FindByID action.ID] }
              else
                processThread { s with calls := s.calls ++ [Call.FindByID action.ID] } tid ti
                  (env.GetThread tid))))) := by
  refine ⟨routeAction_user ThreadInfoCollectionName t env hid s action,
    routeAction_reserved ThreadInfoCollectionName t env s action, ?_, ?_⟩
  · intro hsplit
    have hne : t.threadId.str ≠ [] := ID.str_ne_nil _ hid
    have hp : cutBefore action.Collection t.threadId.str <+: action.Collection :=
      cutBefore_prefix _ _
    simp only [splitFirst, hne, if_false] at hsplit
    rw [hsplit] at hp
    exact List.isPrefixOf_iff_prefix.mpr hp
  · intro hpre
    exact ⟨routeAction_delete ThreadInfoCollectionName t env s action hpre,
      routeAction_dropped ThreadInfoCollectionName t env s action hpre,
      routeAction_create ThreadInfoCollectionName t env s action hpre⟩

/-- C5, witness: a Create action on `docsbafk`, with `docs` registered. -/
theorem C5_router_split_witness :
    routeAction "threads".toList
        { db := some { collections := [], newCollectionCalls := [] },
          threadsCollection := some ⟨1⟩,
          collections := some [("threads".toList, ⟨1⟩), ("docs".toList, ⟨2⟩)],
          actionProcessors := some [("docs".toList, ⟨9⟩)],
          isAccountProcessor := false, threadId := ⟨"bafk".toList⟩ }
        { FindByID := fun _ => .error (Error.other 0), Decode := fun _ => .error (Error.other 0),
          GetThread := fun _ => ⟨ID.Undef, some Error.ErrThreadNotFound⟩,
          DeleteObject := fun _ => none }
        { initialThreads := [], threadsTotal := 0, pending := [], calls := [] }
        { Collection := "docsbafk".toList, Type_ := ActionCreate, ID := "rec1".toList } =
      some { initialThreads := [], threadsTotal := 0, pending := [],
             calls := [] ++ (registeredLaunch
               { db := some { collections := [], newCollectionCalls := [] },
                 threadsCollection := some ⟨1⟩,
                 collections := some [("threads".toList, ⟨1⟩), ("docs".toList, ⟨2⟩)],
                 actionProcessors := some [("docs".toList, ⟨9⟩)],
                 isAccountProcessor := false, threadId := ⟨"bafk".toList⟩ }
               { Collection := "docsbafk".toList, Type_ := ActionCreate,
                 ID := "rec1".toList }).toList } :=
  (C5_router_split "threads".toList _ _ (by decide) _ _).1 (by decide)

/-- C6, counterexample: on the processor `processorX` the logical prefix of the
Save action `saveX` is `threadsX`, which is not the reserved name `threads` and has
a registered collection and a registered handler, yet routing the batch of
`saveX` launches no handler and changes nothing; the logical prefix of the Delete
action `deleteY` is `threadsY`, which has neither collection nor handler, yet
routing the batch of `deleteY` issues a `DeleteObject` request, so it is not the
same as routing the batch without it. -/
theorem C6_counterexample :
    splitFirst saveX.Collection processorX.threadId.str = "threadsX".toList ∧
    "threadsX".toList ≠ "threads".toList ∧
    registeredLaunch processorX saveX = some (Call.actionProcessor ⟨9⟩ saveX ⟨2⟩) ∧
    processThreadActions "threads".toList processorX plainRouterEnv quietSync [saveX] =
      some quietSync ∧
    splitFirst deleteY.Collection processorX.threadId.str = "threadsY".toList ∧
    registeredLaunch processorX deleteY = none ∧
    processThreadActions "threads".toList processorX plainRouterEnv quietSync [deleteY] =
      some { quietSync with calls := [Call.DeleteObject "rec2".toList] } ∧
    processThreadActions "threads".toList processorX plainRouterEnv quietSync [] =
      some quietSync := by
  refine ⟨?_, ?_, ?_, ?_, ?_, ?_, ?_, ?_⟩ <;> decide

/-- C6, amended: on an initialised processor (defined thread id, thread-info
collection set) the router returns for every batch, and the handler launches it
has added to the log are, in batch order, exactly the registered launches of the
actions whose collection name does not begin with the reserved name: one launch,
with that action and the registered collection, per such action whose logical
prefix has both a registered collection and a registered handler, and none for
the others.  Routing the batch is the same as routing it without the unmatched
actions, those whose name does not begin with the reserved name and whose logical
prefix lacks a collection or a handler. -/
theorem C6_handler_invocations (ThreadInfoCollectionName : GoString) (t : threadProcessor)
    (env : RouterEnv) (hid : t.threadId ≠ ID.Undef) (hcoll : t.threadsCollection ≠ none)
    (s : Sync) (actions : List Action) :
    ∃ s1, processThreadActions ThreadInfoCollectionName t env s actions = some s1 ∧
      handlerCalls s1.calls = handlerCalls s.calls ++
        (actions.filter (fun a => !HasPrefix a.Collection ThreadInfoCollectionName)).filterMap
          (registeredLaunch t) ∧
      processThreadActions ThreadInfoCollectionName t env s
        (actions.filter (fun a => !unmatched ThreadInfoCollectionName t a)) = some s1 := by
  obtain ⟨s1, h1⟩ :=
    processThreadActions_isSome ThreadInfoCollectionName t env hid hcoll actions s
  refine ⟨s1, h1, ?_, ?_⟩
  · exact processThreadActions_handlerCalls ThreadInfoCollectionName t env hid actions s s1 h1
  · rw [processThreadActions_filter ThreadInfoCollectionName t env hid actions s, h1]

/-- C6, witness: a batch of an action on the unregistered `misc` and an action on
the registered `docs`. -/
theorem C6_handler_invocations_witness :
    ∃ s1, processThreadActions "threads".toList
        { db := some { collections := [], newCollectionCalls := [] },
          threadsCollection := some ⟨1⟩,
          collections := some [("threads".toList, ⟨1⟩), ("docs".toList, ⟨2⟩)],
          actionProcessors := some [("docs".toList, ⟨9⟩)],
          isAccountProcessor := false, threadId := ⟨"bafk".toList⟩ }
        { FindByID := fun _ => .error (Error.other 0), Decode := fun _ => .error (Error.other 0),
          GetThread := fun _ => ⟨ID.Undef, some Error.ErrThreadNotFound⟩,
          DeleteObject := fun _ => none }
        { initialThreads := [], threadsTotal := 0, pending := [], calls := [] }
        [{ Collection := "miscbafk".toList, Type_ := ActionCreate, ID := "rec1".toList },
         { Collection := "docsbafk".toList, Type_ := ActionSave, ID := "rec2".toList }] = some s1 ∧
      handlerCalls s1.calls =
        [Call.actionProcessor ⟨9⟩
          { Collection := "docsbafk".toList, Type_ := ActionSave, ID := "rec2".toList } ⟨2⟩] := by
  obtain ⟨s1, h1, h2, -⟩ := C6_handler_invocations "threads".toList
    { db := some { collections := [], newCollectionCalls := [] },
      threadsCollection := some ⟨1⟩,
      collections := some [("threads".toList, ⟨1⟩), ("docs".toList, ⟨2⟩)],
      actionProcessors := some [("docs".toList, ⟨9⟩)],
      isAccountProcessor := false, threadId := ⟨"bafk".toList⟩ }
    { FindByID := fun _ => .error (Error.other 0), Decode := fun _ => .error (Error.other 0),
      GetThread := fun _ => ⟨ID.Undef, some Error.ErrThreadNotFound⟩,
      DeleteObject := fun _ => none }
    (by decide) (by decide)
    { initialThreads := [], threadsTotal := 0, pending := [], calls := [] }
    [{ Collection := "miscbafk".toList, Type_ := ActionCreate, ID := "rec1".toList },
     { Collection := "docsbafk".toList, Type_ := ActionSave, ID := "rec2".toList }]
  exact ⟨s1, h1, h2⟩

/-! ## The listener goroutine -/

theorem processBuffer_dispatched (l : Listener) :
    (processBuffer l).dispatched = l.dispatched ++ finalBatch l.flushBuffer := by
  unfold processBuffer finalBatch
  by_cases h : l.flushBuffer = []
  · simp [h]
  · have h2 : l.flushBuffer.length ≠ 0 := fun h3 => h (List.length_eq_zero.mp h3)
    simp [h, h2]

theorem processBuffer_flushBuffer (l : Listener) : (processBuffer l).flushBuffer = [] := by
  unfold processBuffer
  by_cases h : l.flushBuffer.length = 0
  · simpa [h] using List.length_eq_zero.mp h
  · simp [h]

theorem processBuffer_fields (l : Listener) :
    (processBuffer l).timerRead = l.timerRead ∧ (processBuffer l).tmr = l.tmr ∧
    (processBuffer l).returned = l.returned ∧ (processBuffer l).blocked = l.blocked := by
  unfold processBuffer
  split <;> simp

theorem processBuffer_flatten (l : Listener) :
    (processBuffer l).dispatched.flatten ++ (processBuffer l).flushBuffer =
      l.dispatched.flatten ++ l.flushBuffer := by
  rw [processBuffer_dispatched, processBuffer_flushBuffer]
  unfold finalBatch
  by_cases h : l.flushBuffer = [] <;> simp [h]

theorem processBuffer_ok (l : Listener) (h : l.ok) : (processBuffer l).ok := by
  obtain ⟨h1, h2, h3⟩ := h
  obtain ⟨f1, f2, -, f4⟩ := processBuffer_fields l
  refine ⟨by rw [f4, h1], by rw [f1, f2]; exact h2, ?_⟩
  rw [processBuffer_dispatched]
  intro b hb
  rcases List.mem_append.mp hb with hb | hb
  · exact h3 b hb
  · unfold finalBatch at hb
    by_cases hnil : l.flushBuffer = []
    · simp [hnil] at hb
    · simp only [hnil, if_false, List.mem_singleton] at hb
      rw [hb]
      exact hnil

theorem Listener.ok_active (l : Listener) (h : l.ok) (ha : l.tmr.active = true) :
    l.tmr = { active := true, signal := false } ∧ l.timerRead = false := by
  rcases h.2.1 with ⟨h1, h2⟩ | ⟨h1, h2⟩ | ⟨h1, h2⟩
  · exact ⟨h1, h2⟩
  · rw [h1] at ha
    cases ha
  · rw [h1] at ha
    cases ha

theorem Listener.ok_signal (l : Listener) (h : l.ok) (hs : l.tmr.signal = true) :
    l.tmr = { active := false, signal := true } ∧ l.timerRead = false := by
  rcases h.2.1 with ⟨h1, h2⟩ | ⟨h1, h2⟩ | ⟨h1, h2⟩
  · rw [h1] at hs
    cases hs
  · exact ⟨h1, h2⟩
  · rw [h1] at hs
    cases hs

/-- Under the invariant, the receive that precedes the reset finds a signal: the
case of the listen channel appends the action and leaves the timer running with
an empty channel. -/
theorem Listener.receive_ok (l : Listener) (c : Action) (h : l.ok) :
    l.receive c =
      { l with tmr := { active := true, signal := false }, timerRead := false,
               flushBuffer := l.flushBuffer ++ [c] } := by
  rcases h.2.1 with ⟨h1, h2⟩ | ⟨h1, h2⟩ | ⟨h1, h2⟩ <;>
    simp [Listener.receive, Timer.Stop, Timer.recv, Timer.Reset, h1, h2]

theorem Listener.run_returned (ins : List Input) (l : Listener) (h : l.returned = true) :
    l.run ins = l := by
  induction ins with
  | nil => rfl
  | cons i is ih => simp [Listener.run, Listener.step, h, ih]

theorem Listener.run_append (a b : List Input) (l : Listener) :
    l.run (a ++ b) = (l.run a).run b := by
  induction a generalizing l with
  | nil => rfl
  | cons i is ih =>
    simp only [List.cons_append, Listener.run]
    cases l.step i with
    | none => exact ih l
    | some l1 => exact ih l1

theorem Listener.step_ctxDone (l : Listener) (h : l.ok) (hr : l.returned = false) :
    l.step Input.ctxDone = some { processBuffer l with returned := true } := by
  simp [Listener.step, hr, h.1]

theorem Listener.step_msg (l : Listener) (c : Action) (h : l.ok) (hr : l.returned = false) :
    l.step (Input.msg c) =
      some { l with tmr := { active := true, signal := false }, timerRead := false,
                    flushBuffer := l.flushBuffer ++ [c] } := by
  simp [Listener.step, hr, h.1, Listener.receive_ok l c h]

theorem Listener.returned_of_step (l l1 : Listener) (i : Input) (hs : l.step i = some l1) :
    l.returned = false := by
  cases hret : l.returned with
  | false => rfl
  | true => simp [Listener.step, hret] at hs

/-- An expiry keeps the invariant and leaves the batches and the buffer alone. -/
theorem Listener.step_expire (l l1 : Listener) (h : l.ok)
    (hs : l.step Input.expire = some l1) :
    l1.ok ∧ l1.dispatched = l.dispatched ∧ l1.flushBuffer = l.flushBuffer ∧
      l1.returned = false := by
  have hr := Listener.returned_of_step l l1 _ hs
  cases ha : l.tmr.active with
  | false => simp [Listener.step, hr, h.1, ha] at hs
  | true =>
    have hstep : l.step Input.expire = some { l with tmr := l.tmr.expire } := by
      simp [Listener.step, hr, h.1, ha]
    rw [hstep] at hs
    cases hs
    obtain ⟨-, h2⟩ := Listener.ok_active l h ha
    exact ⟨⟨h.1, Or.inr (Or.inl ⟨rfl, h2⟩), h.2.2⟩, rfl, rfl, hr⟩

/-- The case of the timer channel keeps the invariant and dispatches the
buffer. -/
theorem Listener.step_timer (l l1 : Listener) (h : l.ok)
    (hs : l.step Input.timer = some l1) :
    l1.ok ∧ l1.dispatched = l.dispatched ++ finalBatch l.flushBuffer ∧ l1.flushBuffer = [] ∧
      l1.returned = false := by
  have hr := Listener.returned_of_step l l1 _ hs
  cases hsig : l.tmr.signal with
  | false => simp [Listener.step, hr, h.1, Timer.recv, hsig] at hs
  | true =>
    obtain ⟨h1, -⟩ := Listener.ok_signal l h hsig
    have hstep : l.step Input.timer =
        some (processBuffer { l with tmr := ⟨false, false⟩, timerRead := true }) := by
      simp [Listener.step, hr, h.1, Timer.recv, h1]
    rw [hstep] at hs
    cases hs
    have hok0 : Listener.ok { l with tmr := ⟨false, false⟩, timerRead := true } :=
      ⟨h.1, Or.inr (Or.inr ⟨rfl, rfl⟩), h.2.2⟩
    refine ⟨processBuffer_ok _ hok0, processBuffer_dispatched _, processBuffer_flushBuffer _, ?_⟩
    rw [(processBuffer_fields _).2.2.1]
    exact hr

/-- The loop keeps its invariant and loses no action: what has been dispatched,
followed by the buffer, is what had been there followed by the actions received
since; the loop returns, with an empty buffer, exactly when the context has been
cancelled. -/
theorem Listener.run_spec (ins : List Input) (l : Listener) (h : l.ok)
    (hr : l.returned = false) :
    (l.run ins).ok ∧
    (l.run ins).dispatched.flatten ++ (l.run ins).flushBuffer =
      l.dispatched.flatten ++ l.flushBuffer ++ received ins ∧
    (Input.ctxDone ∈ ins → (l.run ins).returned = true ∧ (l.run ins).flushBuffer = []) ∧
    (Input.ctxDone ∉ ins → (l.run ins).returned = false) := by
  have hfl : ∀ l0 : Listener, (l0.dispatched ++ finalBatch l0.flushBuffer).flatten =
      l0.dispatched.flatten ++ l0.flushBuffer := by
    intro l0
    unfold finalBatch
    by_cases hnil : l0.flushBuffer = [] <;> simp [hnil]
  induction ins generalizing l with
  | nil => simp [Listener.run, received, h, hr]
  | cons i is ih =>
    cases i with
    | expire =>
      cases hs : l.step Input.expire with
      | none => simpa [Listener.run, hs, received] using ih l h hr
      | some l1 =>
        obtain ⟨hok, hd, hb, hret⟩ := Listener.step_expire l l1 h hs
        have := ih l1 hok hret
        rw [hd, hb] at this
        simpa [Listener.run, hs, received] using this
    | timer =>
      cases hs : l.step Input.timer with
      | none => simpa [Listener.run, hs, received] using ih l h hr
      | some l1 =>
        obtain ⟨hok, hd, hb, hret⟩ := Listener.step_timer l l1 h hs
        have := ih l1 hok hret
        rw [hd, hb, hfl l] at this
        simpa [Listener.run, hs, received] using this
    | msg c =>
      have hs := Listener.step_msg l c h hr
      have hok : Listener.ok { l with tmr := ⟨true, false⟩, timerRead := false,
                                      flushBuffer := l.flushBuffer ++ [c] } :=
        ⟨h.1, Or.inl ⟨rfl, rfl⟩, h.2.2⟩
      simpa [Listener.run, hs, received] using ih _ hok hr
    | ctxDone =>
      have hs := Listener.step_ctxDone l h hr
      have hrun : l.run (Input.ctxDone :: is) = { processBuffer l with returned := true } := by
        simp only [Listener.run, hs]
        exact Listener.run_returned is _ rfl
      have hok := processBuffer_ok l h
      rw [hrun]
      refine ⟨⟨hok.1, hok.2.1, hok.2.2⟩, ?_, ?_, ?_⟩
      · simpa [received] using processBuffer_flatten l
      · intro _
        exact ⟨rfl, processBuffer_flushBuffer l⟩
      · intro hnot
        simp at hnot

theorem Listener.init_ok : Listener.init.ok := by
  simp [Listener.ok, Listener.init, Timer.NewTimer]

/-- C2: for every sequence of inputs of the listener goroutine (actions received,
expiries of the idle timer and their handling, cancellation of the context) the
goroutine is never blocked, no dispatched batch is empty, and the dispatched
batches followed by the buffer are the received actions, each once and in arrival
order.  When the context is cancelled, the goroutine has returned with an empty
buffer, so the dispatched batches alone are the received actions; the
cancellation has dispatched the buffer as the one final batch (none when the
buffer was empty), and nothing is dispatched after it. -/
theorem C2_buffer_delivers_once (ins : List Input) :
    (Listener.init.run ins).blocked = false ∧
    (∀ b ∈ (Listener.init.run ins).dispatched, b ≠ []) ∧
    (Listener.init.run ins).dispatched.flatten ++ (Listener.init.run ins).flushBuffer =
      received ins ∧
    (Input.ctxDone ∈ ins →
      (Listener.init.run ins).returned = true ∧
      (Listener.init.run ins).dispatched.flatten = received ins) ∧
    (∀ before after : List Input, ins = before ++ Input.ctxDone :: after →
      Input.ctxDone ∉ before →
      (Listener.init.run before).returned = false ∧
      (Listener.init.run ins).dispatched =
        (Listener.init.run before).dispatched ++
          finalBatch (Listener.init.run before).flushBuffer) := by
  obtain ⟨hok, hflat, hdone, -⟩ := Listener.run_spec ins Listener.init Listener.init_ok rfl
  refine ⟨hok.1, hok.2.2, ?_, ?_, ?_⟩
  · simpa [Listener.init] using hflat
  · intro hmem
    obtain ⟨hret, hbuf⟩ := hdone hmem
    refine ⟨hret, ?_⟩
    rw [hbuf] at hflat
    simpa [Listener.init] using hflat
  · intro before after hins hnot
    obtain ⟨hok1, -, -, hnr⟩ :=
      Listener.run_spec before Listener.init Listener.init_ok rfl
    have hr1 := hnr hnot
    refine ⟨hr1, ?_⟩
    have hstep := Listener.step_ctxDone (Listener.init.run before) hok1 hr1
    rw [hins, Listener.run_append]
    simp only [Listener.run, hstep]
    rw [Listener.run_returned after _ rfl]
    exact processBuffer_dispatched _

/-! ## Initialisation, continued -/

/-- What `addCollection` leaves alone: it only touches the store handle, which is
set afterwards. -/
theorem addCollection_frame (t t1 : threadProcessor) (name : GoString) (schema : Schema)
    (store : StoreOracle) (r : Except Error Collection)
    (h : addCollection t name schema store = some (r, t1)) :
    t1.db ≠ none ∧ t1.threadsCollection = t.threadsCollection ∧
    t1.collections = t.collections ∧ t1.actionProcessors = t.actionProcessors ∧
    t1.isAccountProcessor = t.isAccountProcessor ∧ t1.threadId = t.threadId := by
  unfold addCollection at h
  cases hdb : t.db with
  | none => simp [hdb] at h
  | some d =>
    simp only [hdb] at h
    cases hget : d.GetCollection name with
    | some c =>
      simp only [hget, Option.some.injEq, Prod.mk.injEq] at h
      obtain ⟨-, rfl⟩ := h
      simp [hdb]
    | none =>
      simp only [hget, Option.some.injEq, Prod.mk.injEq] at h
      obtain ⟨-, rfl⟩ := h
      simp

/-- What `AddCollectionWithPrefix` leaves alone: it only touches the store handle,
which is set afterwards, and the registry map. -/
theorem AddCollectionWithPrefix_frame (t t1 : threadProcessor) (pfx : GoString)
    (schema : Schema) (store : StoreOracle) (r : Except Error Collection)
    (h : AddCollectionWithPrefix t pfx schema store = some (r, t1)) :
    t1.db ≠ none ∧ t1.threadsCollection = t.threadsCollection ∧
    t1.actionProcessors = t.actionProcessors ∧
    t1.isAccountProcessor = t.isAccountProcessor ∧ t1.threadId = t.threadId := by
  unfold AddCollectionWithPrefix at h
  cases hs : t.threadId.String with
  | none => simp [hs] at h
  | some idString =>
    simp only [hs] at h
    cases ha : addCollection t (pfx ++ idString) schema store with
    | none => simp [ha] at h
    | some res =>
      obtain ⟨r2, t2⟩ := res
      obtain ⟨f1, f2, f3, f4, f5, f6⟩ := addCollection_frame t t2 _ schema store r2 ha
      cases r2 with
      | error e =>
        simp only [ha, Option.some.injEq, Prod.mk.injEq] at h
        obtain ⟨-, rfl⟩ := h
        exact ⟨f1, f2, f4, f5, f6⟩
      | ok c =>
        simp only [ha] at h
        cases hm : t2.collections with
        | none => simp [hm] at h
        | some m =>
          simp only [hm, Option.some.injEq, Prod.mk.injEq] at h
          obtain ⟨-, rfl⟩ := h
          exact ⟨f1, f2, f4, f5, f6⟩

/-- What the loop of `Init` over the supplied collections leaves alone. -/
theorem registerOptions_frame (store : StoreOracle) (l : List (GoString × Schema))
    (t t1 : threadProcessor) (e : Option Error) (hdb : t.db ≠ none)
    (h : registerOptions store t l = some (e, t1)) :
    t1.db ≠ none ∧ t1.threadsCollection = t.threadsCollection ∧
    t1.actionProcessors = t.actionProcessors ∧
    t1.isAccountProcessor = t.isAccountProcessor ∧ t1.threadId = t.threadId := by
  induction l generalizing t with
  | nil =>
    simp only [registerOptions, Option.some.injEq, Prod.mk.injEq] at h
    obtain ⟨-, rfl⟩ := h
    exact ⟨hdb, rfl, rfl, rfl, rfl⟩
  | cons x rest ih =>
    obtain ⟨name, schema⟩ := x
    simp only [registerOptions] at h
    cases ha : AddCollectionWithPrefix t name schema store with
    | none => simp [ha] at h
    | some res =>
      obtain ⟨r2, t2⟩ := res
      obtain ⟨f1, f2, f3, f4, f5⟩ := AddCollectionWithPrefix_frame t t2 name schema store r2 ha
      cases r2 with
      | error err =>
        simp only [ha, Option.some.injEq, Prod.mk.injEq] at h
        obtain ⟨-, rfl⟩ := h
        exact ⟨f1, f2, f3, f4, f5⟩
      | ok c =>
        simp only [ha] at h
        obtain ⟨g1, g2, g3, g4, g5⟩ := ih t2 f1 h
        exact ⟨g1, g2.trans f2, g3.trans f3, g4.trans f4, g5.trans f5⟩

/-- The guard of `Init`: with the store handle set, nothing happens. -/
theorem Init_db_set (ThreadInfoCollectionName : GoString) (env : InitEnv)
    (t : threadProcessor) (id : ID) (options : List ThreadProcessorOption)
    (h : t.db ≠ none) :
    Init ThreadInfoCollectionName env t id options = some (none, t, []) := by
  unfold Init
  rw [if_pos h]

/-- C11: `Init` on a processor whose store handle is set returns nil for every
thread id and every list of options, makes no call to a collaborator, and leaves
every field of the processor (thread id, store handle, thread-info collection,
collection registry, handler map) as it was. -/
theorem C11_Init_initialised (ThreadInfoCollectionName : GoString) (env : InitEnv)
    (t : threadProcessor) (id : ID) (options : List ThreadProcessorOption)
    (h : t.db ≠ none) :
    Init ThreadInfoCollectionName env t id options = some (none, t, []) :=
  Init_db_set ThreadInfoCollectionName env t id options h

/-- C11, witness: a second `Init`, with another id and another option, on the
initialised processor of thread `bafw`. -/
theorem C11_Init_initialised_witness :
    Init "threads".toList
        { GetThread := fun _ => .ok [], NewDB := fun _ _ => .ok ⟨[], []⟩,
          store := fun _ => .ok ⟨0⟩, rangeOrder := fun m => m }
        workspaceProcessor ⟨"bafx".toList⟩
        [ThreadProcessorOption.WithCollection "docs".toList 1] =
      some (none, workspaceProcessor, []) :=
  C11_Init_initialised _ _ _ _ _ (by decide)

/-- C18: when `Init` on a processor without store handle has opened the store
(`GetThread` and `NewDB` succeeded for a defined id) and then returns an error,
the store handle is set on the processor it leaves behind and the handler map is
the one from before the call (nil on a new processor); every later `Init`, for
any id, options and collaborators, returns nil at once, calls no collaborator and
changes nothing: no missing collection is registered and no handler is
recorded. -/
theorem C18_failed_Init_sticks (ThreadInfoCollectionName : GoString) (env : InitEnv)
    (t t1 : threadProcessor) (id : ID) (options : List ThreadProcessorOption)
    (key : GoString) (d : DB) (err : Error) (calls : List Call)
    (hdb : t.db = none) (hid : id ≠ ID.Undef) (hget : env.GetThread id = .ok key)
    (hnew : env.NewDB id key = .ok d)
    (hfail : Init ThreadInfoCollectionName env t id options = some (some err, t1, calls)) :
    t1.db ≠ none ∧ t1.actionProcessors = t.actionProcessors ∧
    ∀ (env2 : InitEnv) (id2 : ID) (options2 : List ThreadProcessorOption),
      Init ThreadInfoCollectionName env2 t1 id2 options2 = some (none, t1, []) := by
  have key_fact : t1.db ≠ none ∧ t1.actionProcessors = t.actionProcessors := by
    simp only [Init, hdb, ne_eq, not_true_eq_false, if_false, hid, hget, hnew, ID.String] at hfail
    split at hfail
    · simp at hfail
    · rename_i e t4 ha
      obtain ⟨f1, -, -, f4, -, -⟩ := addCollection_frame _ t4 _ _ _ _ ha
      simp only [Option.some.injEq, Prod.mk.injEq] at hfail
      obtain ⟨-, rfl, -⟩ := hfail
      exact ⟨f1, f4⟩
    · rename_i c t4 ha
      obtain ⟨f1, -, -, f4, -, -⟩ := addCollection_frame _ t4 _ _ _ _ ha
      split at hfail
      · simp at hfail
      · split at hfail
        · simp at hfail
        · rename_i e t6 hreg
          obtain ⟨g1, -, g3, -, -⟩ := registerOptions_frame _ _ _ t6 _ (by simpa using f1) hreg
          simp only [Option.some.injEq, Prod.mk.injEq] at hfail
          obtain ⟨-, rfl, -⟩ := hfail
          exact ⟨g1, by simpa using g3.trans f4⟩
        · simp at hfail
  exact ⟨key_fact.1, key_fact.2, fun env2 id2 options2 =>
    Init_db_set ThreadInfoCollectionName env2 t1 id2 options2 key_fact.1⟩

/-- C18, witness: the store of a new processor is opened for thread `bafw` and
then refuses to create the thread-info collection. -/
theorem C18_failed_Init_sticks_witness :
    (some ({ collections := [], newCollectionCalls :=
        [{ Name := "threadsbafw".toList, Schema := threadInfoSchema }] } : DB)) ≠ none ∧
    (none : Option (GoMap GoString Handler)) = (NewThreadProcessor false).actionProcessors :=
  ⟨(C18_failed_Init_sticks "threads".toList
      { GetThread := fun _ => .ok "key".toList, NewDB := fun _ _ => .ok ⟨[], []⟩,
        store := fun _ => .error (Error.other 5), rangeOrder := fun m => m }
      (NewThreadProcessor false)
      { db := some { collections := [], newCollectionCalls :=
          [{ Name := "threadsbafw".toList, Schema := threadInfoSchema }] },
        threadsCollection := none, collections := some [], actionProcessors := none,
        isAccountProcessor := false, threadId := ⟨"bafw".toList⟩ }
      ⟨"bafw".toList⟩ [ThreadProcessorOption.WithCollection "docs".toList 1]
      "key".toList ⟨[], []⟩ (Error.other 5)
      [Call.GetThread ⟨"bafw".toList⟩, Call.NewDB ⟨"bafw".toList⟩ "key".toList]
      rfl (by decide) rfl rfl rfl).1,
   (C18_failed_Init_sticks "threads".toList
      { GetThread := fun _ => .ok "key".toList, NewDB := fun _ _ => .ok ⟨[], []⟩,
        store := fun _ => .error (Error.other 5), rangeOrder := fun m => m }
      (NewThreadProcessor false)
      { db := some { collections := [], newCollectionCalls :=
          [{ Name := "threadsbafw".toList, Schema := threadInfoSchema }] },
        threadsCollection := none, collections := some [], actionProcessors := none,
        isAccountProcessor := false, threadId := ⟨"bafw".toList⟩ }
      ⟨"bafw".toList⟩ [ThreadProcessorOption.WithCollection "docs".toList 1]
      "key".toList ⟨[], []⟩ (Error.other 5)
      [Call.GetThread ⟨"bafw".toList⟩, Call.NewDB ⟨"bafw".toList⟩ "key".toList]
      rfl (by decide) rfl rfl rfl).2.1⟩

/-! ## The router on the thread-info collection -/

/-- C13: for every action whose collection name begins with the reserved
thread-info name and whose type is not Create, the router does not panic and
launches no resolution goroutine; a Delete adds exactly one `DeleteObject`
request for the action's record id to the log, an action of another type adds
nothing; in both cases the result does not depend on the answer of the object
deleter (nil, thread-not-found or another error), and the router goes on with the
rest of the batch. -/
theorem C13_reserved_not_create (ThreadInfoCollectionName : GoString) (t : threadProcessor)
    (env : RouterEnv) (s : Sync) (action : Action) (actions : List Action)
    (hpre : HasPrefix action.Collection ThreadInfoCollectionName = true)
    (htype : action.Type_ ≠ ActionCreate) :
    routeAction ThreadInfoCollectionName t env s action =
      some (if action.Type_ = ActionDelete then
        { s with calls := s.calls ++ [Call.DeleteObject action.ID] } else s) ∧
    processThreadActions ThreadInfoCollectionName t env s (action :: actions) =
      processThreadActions ThreadInfoCollectionName t env
        (if action.Type_ = ActionDelete then
          { s with calls := s.calls ++ [Call.DeleteObject action.ID] } else s) actions := by
  have h1 : routeAction ThreadInfoCollectionName t env s action =
      some (if action.Type_ = ActionDelete then
        { s with calls := s.calls ++ [Call.DeleteObject action.ID] } else s) := by
    by_cases hdel : action.Type_ = ActionDelete
    · simp [routeAction, hpre, hdel, removeThread]
    · simp [routeAction, hpre, hdel, htype]
  exact ⟨h1, by simp only [processThreadActions, h1]⟩

/-- C13, witness: a Delete on `threadsbafw` for the record `bafC`, which the
object deleter reports as not found. -/
theorem C13_reserved_not_create_witness :
    routeAction "threads".toList workspaceProcessor
        { FindByID := fun _ => .error (Error.other 0), Decode := fun _ => .error (Error.other 0),
          GetThread := fun _ => ⟨ID.Undef, some Error.ErrThreadNotFound⟩,
          DeleteObject := fun _ => some Error.ErrThreadNotFound }
        { initialThreads := [], threadsTotal := 0, pending := [], calls := [] }
        { Collection := "threadsbafw".toList, Type_ := ActionDelete, ID := "bafC".toList } =
      some (if ActionDelete = ActionDelete then
        { initialThreads := [], threadsTotal := 0, pending := [],
          calls := [] ++ [Call.DeleteObject "bafC".toList] }
        else { initialThreads := [], threadsTotal := 0, pending := [], calls := [] }) :=
  (C13_reserved_not_create "threads".toList workspaceProcessor _ _
    { Collection := "threadsbafw".toList, Type_ := ActionDelete, ID := "bafC".toList } []
    (by decide) (by decide)).1

/-! ## Batches and timer signals -/

theorem Listener.admits_append (a b : List Input) (l : Listener)
    (h : l.admits (a ++ b) = true) : l.admits a = true ∧ (l.run a).admits b = true := by
  induction a generalizing l with
  | nil => exact ⟨rfl, h⟩
  | cons i is ih =>
    simp only [List.cons_append, Listener.admits] at h
    cases hs : l.step i with
    | none => simp [hs] at h
    | some l1 =>
      simp only [hs] at h
      simpa [Listener.admits, Listener.run, hs] using ih l1 h

/-- Without an expiry no signal comes into the channel of the timer. -/
theorem Listener.step_signal (l l1 : Listener) (i : Input) (hsig : l.tmr.signal = false)
    (hi : i ≠ Input.expire) (hs : l.step i = some l1) : l1.tmr.signal = false := by
  unfold Listener.step at hs
  split at hs
  · cases hs
  · cases i with
    | expire => exact absurd rfl hi
    | ctxDone =>
      simp only [Option.some.injEq] at hs
      subst hs
      simpa [(processBuffer_fields l).2.1] using hsig
    | timer => simp [Timer.recv, hsig] at hs
    | msg c =>
      simp only [Option.some.injEq] at hs
      subst hs
      unfold Listener.receive
      simp only [Timer.Stop, Timer.recv, hsig, Bool.false_eq_true, if_false, Timer.Reset]
      split <;> simp [hsig]

theorem Listener.run_signal (ins : List Input) (l : Listener) (hsig : l.tmr.signal = false)
    (hne : Input.expire ∉ ins) : (l.run ins).tmr.signal = false := by
  induction ins generalizing l with
  | nil => exact hsig
  | cons i is ih =>
    simp only [List.mem_cons, not_or] at hne
    simp only [Listener.run]
    cases hs : l.step i with
    | none => exact ih l hsig hne.2
    | some l1 =>
      exact ih l1 (Listener.step_signal l l1 i hsig (fun h => hne.1 h.symm) hs) hne.2

/-- With no signal in the channel `select` cannot take the case of the timer. -/
theorem Listener.step_timer_none (l : Listener) (hsig : l.tmr.signal = false) :
    l.step Input.timer = none := by
  unfold Listener.step
  split
  · rfl
  · simp [Timer.recv, hsig]

/-- The batches that the loop dispatches on a possible sequence of inputs without
cancellation are the runs that the timer signals taken cut off. -/
theorem Listener.run_cut (ins : List Input) (l : Listener) (h : l.ok)
    (hadm : l.admits ins = true) (hnc : Input.ctxDone ∉ ins) :
    (l.run ins).dispatched = l.dispatched ++ (cutAtTimer l.flushBuffer ins).1 ∧
    (l.run ins).flushBuffer = (cutAtTimer l.flushBuffer ins).2 := by
  induction ins generalizing l with
  | nil => simp [Listener.run, cutAtTimer]
  | cons i is ih =>
    simp only [List.mem_cons, not_or] at hnc
    simp only [Listener.admits] at hadm
    cases hs : l.step i with
    | none => simp [hs] at hadm
    | some l1 =>
      simp only [hs] at hadm
      cases i with
      | expire =>
        obtain ⟨hok, hd, hb, -⟩ := Listener.step_expire l l1 h hs
        obtain ⟨ih1, ih2⟩ := ih l1 hok hadm hnc.2
        simp only [Listener.run, hs, cutAtTimer]
        rw [hd, hb] at ih1
        rw [hb] at ih2
        exact ⟨ih1, ih2⟩
      | ctxDone => exact absurd rfl hnc.1
      | timer =>
        obtain ⟨hok, hd, hb, -⟩ := Listener.step_timer l l1 h hs
        obtain ⟨ih1, ih2⟩ := ih l1 hok hadm hnc.2
        simp only [Listener.run, hs, cutAtTimer]
        rw [hd, hb] at ih1
        rw [hb] at ih2
        exact ⟨by rw [ih1, List.append_assoc], ih2⟩
      | msg c =>
        have hr := Listener.returned_of_step l l1 _ hs
        rw [Listener.step_msg l c h hr] at hs
        cases hs
        have hok : Listener.ok { l with tmr := ⟨true, false⟩, timerRead := false,
                                        flushBuffer := l.flushBuffer ++ [c] } :=
          ⟨h.1, Or.inl ⟨rfl, rfl⟩, h.2.2⟩
        obtain ⟨ih1, ih2⟩ := ih _ hok hadm hnc.2
        simp only [Listener.run, Listener.step_msg l c h hr, cutAtTimer]
        exact ⟨ih1, ih2⟩

/-- While no timer signal is taken, nothing is cut off: the actions received join
the open run. -/
theorem cutAtTimer_no_timer (ins : List Input) (run : List Action)
    (hnt : Input.timer ∉ ins) (hnc : Input.ctxDone ∉ ins) :
    cutAtTimer run ins = ([], run ++ received ins) := by
  induction ins generalizing run with
  | nil => simp [cutAtTimer, received]
  | cons i is ih =>
    simp only [List.mem_cons, not_or] at hnt hnc
    cases i with
    | expire => simpa [cutAtTimer, received] using ih run hnt.2 hnc.2
    | ctxDone => exact absurd rfl hnc.1
    | timer => exact absurd rfl hnt.1
    | msg c => simpa [cutAtTimer, received] using ih (run ++ [c]) hnt.2 hnc.2

theorem cutAtTimer_append (a b : List Input) (run : List Action) :
    cutAtTimer run (a ++ b) =
      ((cutAtTimer run a).1 ++ (cutAtTimer (cutAtTimer run a).2 b).1,
        (cutAtTimer (cutAtTimer run a).2 b).2) := by
  induction a generalizing run with
  | nil => simp [cutAtTimer]
  | cons i is ih =>
    cases i with
    | expire => simpa [cutAtTimer] using ih run
    | ctxDone => simpa [cutAtTimer] using ih run
    | timer => simp [cutAtTimer, ih []]
    | msg c => simpa [cutAtTimer] using ih (run ++ [c])

/-- C14, counterexample: the timer expires between the actions `actionA` and
`actionB` (the idle window has passed since `actionA`), but `select` takes
`actionB` before the signal of the timer; the loop receives the stale signal in
front of the reset, and the signal of the next expiry dispatches both actions in
one batch.  When `select` takes the signal before `actionB`, the same actions are
dispatched in two batches. -/
theorem C14_counterexample :
    Listener.init.admits lateSignal = true ∧
    (Listener.init.run lateSignal).dispatched = [[actionA, actionB]] ∧
    (Listener.init.run [Input.msg actionA, Input.expire]).tmr =
      { active := false, signal := true } ∧
    Listener.init.admits promptSignal = true ∧
    (Listener.init.run promptSignal).dispatched = [[actionA], [actionB]] := by
  refine ⟨?_, ?_, ?_, ?_, ?_⟩ <;> decide

/-- C14, amended: on every possible sequence of inputs of the listener goroutine
without cancellation, the batches dispatched are exactly the non-empty runs of
received actions between the timer signals that `select` takes, in input order,
and the buffer holds the run after the last of them.  While no timer signal is
taken nothing is dispatched; the first signal taken dispatches all actions
received before it as one batch, and every later signal dispatches the actions
received since the signal before it as a batch of their own.  A signal can be
taken after an action only when the timer has expired after that action was
received. -/
theorem C14_batches_between_timer_signals (ins : List Input)
    (hadm : Listener.init.admits ins = true) (hnc : Input.ctxDone ∉ ins) :
    (Listener.init.run ins).dispatched = (cutAtTimer [] ins).1 ∧
    (Listener.init.run ins).flushBuffer = (cutAtTimer [] ins).2 ∧
    (Input.timer ∉ ins →
      (Listener.init.run ins).dispatched = [] ∧
      (Listener.init.run ins).flushBuffer = received ins) ∧
    (∀ before : List Input, ins = before ++ [Input.timer] → Input.timer ∉ before →
      (Listener.init.run ins).dispatched = finalBatch (received before) ∧
      (Listener.init.run ins).flushBuffer = []) ∧
    (∀ before between : List Input,
      ins = (before ++ [Input.timer]) ++ (between ++ [Input.timer]) →
      Input.timer ∉ between →
      (Listener.init.run ins).dispatched =
        (Listener.init.run (before ++ [Input.timer])).dispatched ++
          finalBatch (received between)) ∧
    (∀ (before : List Input) (c : Action) (between after : List Input),
      ins = (before ++ [Input.msg c]) ++ (between ++ Input.timer :: after) →
      Input.expire ∈ between) := by
  obtain ⟨hcut1, hcut2⟩ := Listener.run_cut ins Listener.init Listener.init_ok hadm hnc
  have hd : (Listener.init.run ins).dispatched = (cutAtTimer [] ins).1 := by
    simpa [Listener.init] using hcut1
  have hb : (Listener.init.run ins).flushBuffer = (cutAtTimer [] ins).2 := by
    simpa [Listener.init] using hcut2
  refine ⟨hd, hb, ?_, ?_, ?_, ?_⟩
  · intro hnt
    rw [hd, hb, cutAtTimer_no_timer ins [] hnt hnc]
    simp
  · intro before hins hnt
    have hnc2 : Input.ctxDone ∉ before := fun hm => hnc (by rw [hins]; simp [hm])
    rw [hd, hb, hins, cutAtTimer_append, cutAtTimer_no_timer before [] hnt hnc2]
    simp [cutAtTimer]
  · intro before between hins hnt
    have hnc1 : Input.ctxDone ∉ before ++ [Input.timer] :=
      fun hm => hnc (by rw [hins]; exact List.mem_append_left _ hm)
    have hnc2 : Input.ctxDone ∉ between := fun hm => hnc (by rw [hins]; simp [hm])
    have hadm1 : Listener.init.admits (before ++ [Input.timer]) = true := by
      rw [hins] at hadm
      exact (Listener.admits_append _ _ _ hadm).1
    obtain ⟨hp1, -⟩ := Listener.run_cut _ Listener.init Listener.init_ok hadm1 hnc1
    have hopen : (cutAtTimer [] (before ++ [Input.timer])).2 = [] := by
      rw [cutAtTimer_append]
      simp [cutAtTimer]
    have e1 : cutAtTimer [] ins =
        ((cutAtTimer [] (before ++ [Input.timer])).1 ++
            (cutAtTimer [] (between ++ [Input.timer])).1,
          (cutAtTimer [] (between ++ [Input.timer])).2) := by
      rw [hins, cutAtTimer_append, hopen]
    have e2 : cutAtTimer [] (between ++ [Input.timer]) = (finalBatch (received between), []) := by
      rw [cutAtTimer_append, cutAtTimer_no_timer between [] hnt hnc2]
      simp [cutAtTimer]
    have hp2 : (Listener.init.run (before ++ [Input.timer])).dispatched =
        (cutAtTimer [] (before ++ [Input.timer])).1 := by
      simpa [Listener.init] using hp1
    rw [hd, e1, e2, hp2]
  · intro before c between after hins
    by_contra hne
    rw [hins] at hadm
    obtain ⟨hadm1, hadm2⟩ := Listener.admits_append _ _ _ hadm
    obtain ⟨hadm3, hadm4⟩ := Listener.admits_append _ _ _ hadm1
    obtain ⟨-, hadm5⟩ := Listener.admits_append _ _ _ hadm2
    have hok := (Listener.run_spec before Listener.init Listener.init_ok rfl).1
    have hsig0 : (Listener.init.run (before ++ [Input.msg c])).tmr.signal = false := by
      rw [Listener.run_append]
      simp only [Listener.admits] at hadm4
      cases hs : (Listener.init.run before).step (Input.msg c) with
      | none => simp [hs] at hadm4
      | some l1 =>
        have hret : (Listener.init.run before).returned = false := by
          cases hr : (Listener.init.run before).returned with
          | false => rfl
          | true => simp [Listener.step, hr] at hs
        rw [Listener.step_msg _ c hok hret] at hs
        cases hs
        simp [Listener.run, Listener.step_msg _ c hok hret]
    have hsig := Listener.run_signal between _ hsig0 hne
    have hnone := Listener.step_timer_none _ hsig
    simp [Listener.admits, hnone] at hadm5

/-- C14, witness: the sequence `promptSignal`. -/
theorem C14_batches_between_timer_signals_witness :
    (Listener.init.run promptSignal).dispatched = (cutAtTimer [] promptSignal).1 :=
  (C14_batches_between_timer_signals promptSignal (by decide) (by decide)).1

/-! ## The flag `timerRead` -/

/-- The case of the listen channel in terms of its test: the receive `<-tmr.C` is
run exactly when `drains` holds, and blocks when no signal waits. -/
theorem Listener.receive_drains (l : Listener) (c : Action) :
    l.receive c =
      if l.drains = true then
        match l.tmr.Stop.2.recv with
        | some tmr =>
          { l with tmr := tmr.Reset, timerRead := false, flushBuffer := l.flushBuffer ++ [c] }
        | none => { l with tmr := l.tmr.Stop.2, blocked := true }
      else
        { l with tmr := l.tmr.Stop.2.Reset, timerRead := false,
                 flushBuffer := l.flushBuffer ++ [c] } := by
  unfold Listener.receive Listener.drains
  rfl

/-- C17: in every state that the listener goroutine reaches, the flag `timerRead`
is true exactly when the timer has expired and its signal has been received (the
timer not running, its channel empty); the receive `<-tmr.C` in front of the
reset is run exactly when the timer has expired and its signal still waits in the
channel, so the goroutine is never blocked in it; after the case of the listen
channel the timer runs, no signal is left in its channel, the flag is cleared and
the action is in the buffer; and from then on `select` cannot take the case of the
timer channel before the timer has expired anew, that is, before the window has
passed once more. -/
theorem C17_timerRead_flag (ins : List Input) :
    ((Listener.init.run ins).timerRead = true ↔
      (Listener.init.run ins).tmr = { active := false, signal := false }) ∧
    ((Listener.init.run ins).drains = true ↔
      (Listener.init.run ins).tmr = { active := false, signal := true }) ∧
    (Listener.init.run ins).blocked = false ∧
    (∀ c, ((Listener.init.run ins).receive c).tmr = { active := true, signal := false } ∧
      ((Listener.init.run ins).receive c).blocked = false ∧
      ((Listener.init.run ins).receive c).timerRead = false ∧
      ((Listener.init.run ins).receive c).flushBuffer =
        (Listener.init.run ins).flushBuffer ++ [c]) ∧
    (∀ (c : Action) (more : List Input), Input.expire ∉ more →
      (((Listener.init.run ins).receive c).run more).step Input.timer = none) := by
  have hok := (Listener.run_spec ins Listener.init Listener.init_ok rfl).1
  have hrecv := fun c => Listener.receive_ok (Listener.init.run ins) c hok
  refine ⟨?_, ?_, hok.1, ?_, ?_⟩
  · rcases hok.2.1 with ⟨h1, h2⟩ | ⟨h1, h2⟩ | ⟨h1, h2⟩ <;> simp [h1, h2]
  · rcases hok.2.1 with ⟨h1, h2⟩ | ⟨h1, h2⟩ | ⟨h1, h2⟩ <;>
      simp [Listener.drains, Timer.Stop, h1, h2]
  · intro c
    rw [hrecv c]
    exact ⟨rfl, hok.1, rfl, rfl⟩
  · intro c more hne
    apply Listener.step_timer_none
    apply Listener.run_signal more _ _ hne
    rw [hrecv c]

/-! ## Invariants of a sync session -/

theorem lastTotal_append (cs : List Call) (c : Call) :
    lastTotal (cs ++ [c]) = match c with
      | .SetTotalThreads n => some n
      | _ => lastTotal cs := by
  simp [lastTotal, List.foldl_append]

theorem lastTotal_append_quiet (cs : List Call) (c : Call) (hc : c ≠ Call.Start → c.quiet = true)
    (hs : ∀ n, c ≠ Call.SetTotalThreads n) : lastTotal (cs ++ [c]) = lastTotal cs := by
  rw [lastTotal_append]
  cases c <;> simp_all

theorem countAddThread_append (cs : List Call) (c : Call) :
    countAddThread (cs ++ [c]) = countAddThread cs + (if c = Call.AddThread then 1 else 0) := by
  cases c <;> simp [countAddThread, List.count_append, List.count_singleton]

theorem countFinish_append (cs : List Call) (c : Call) :
    countFinish (cs ++ [c]) = countFinish cs + (if c = Call.Finish then 1 else 0) := by
  cases c <;> simp [countFinish, List.count_append, List.count_singleton]

theorem GoMap.get?_none_of_not_mem {K V : Type} [DecidableEq K] (m : GoMap K V) (k : K)
    (h : k ∉ m.map Prod.fst) : GoMap.get? m k = none := by
  induction m with
  | nil => rfl
  | cons e m ih =>
    obtain ⟨k1, v⟩ := e
    simp only [List.map_cons, List.mem_cons, not_or] at h
    have h1 : ¬ k1 = k := fun h2 => h.1 h2.symm
    simp [GoMap.get?, h1, ih h.2]

theorem GoMap.len_delete {K V : Type} [DecidableEq K] (m : GoMap K V) (k : K) (v : V)
    (hn : (m.map Prod.fst).Nodup) (h : GoMap.get? m k = some v) :
    (GoMap.delete m k).len + 1 = m.len := by
  induction m with
  | nil => simp [GoMap.get?] at h
  | cons e m ih =>
    obtain ⟨k1, v1⟩ := e
    simp only [List.map_cons, List.nodup_cons] at hn
    rw [GoMap.delete_cons]
    by_cases h1 : k1 = k
    · subst h1
      have := GoMap.delete_of_get?_none m k1 (GoMap.get?_none_of_not_mem m k1 hn.1)
      simp [this, GoMap.len]
    · simp only [GoMap.get?, h1, if_false] at h
      have := ih hn.2 h
      simp only [GoMap.len] at this ⊢
      simp [h1, this]

theorem GoMap.delete_sublist {K V : Type} [DecidableEq K] (m : GoMap K V) (k : K) :
    List.Sublist (GoMap.delete m k) m :=
  List.filter_sublist m

theorem GoMap.nodup_delete {K V : Type} [DecidableEq K] (m : GoMap K V) (k : K)
    (hn : (m.map Prod.fst).Nodup) : ((GoMap.delete m k).map Prod.fst).Nodup :=
  hn.sublist ((GoMap.delete_sublist m k).map Prod.fst)

theorem Sync.keeps_refl (s : Sync) : s.keeps s :=
  ⟨id, id, List.Sublist.refl _⟩

theorem Sync.keeps_trans (s1 s2 s3 : Sync) (h12 : s1.keeps s2) (h23 : s2.keeps s3) :
    s1.keeps s3 :=
  ⟨fun h => h23.1 (h12.1 h), fun h => h23.2.1 (h12.2.1 h), h23.2.2.trans h12.2.2⟩

/-- Logging a call that is no call of the notifier, and changing the pending
goroutines, keeps the invariants. -/
theorem Sync.keeps_log (s : Sync) (c : Call) (p : List (ID × threadInfo))
    (hq : c.quiet = true) :
    s.keeps { s with calls := s.calls ++ [c], pending := p } := by
  have h1 : lastTotal (s.calls ++ [c]) = lastTotal s.calls :=
    lastTotal_append_quiet _ _ (fun _ => hq) (fun n hn => by subst hn; simp [Call.quiet] at hq)
  have h2 : countAddThread (s.calls ++ [c]) = countAddThread s.calls := by
    rw [countAddThread_append]
    have : c ≠ Call.AddThread := fun hn => by subst hn; simp [Call.quiet] at hq
    simp [this]
  have h3 : countFinish (s.calls ++ [c]) = countFinish s.calls := by
    rw [countFinish_append]
    have : c ≠ Call.Finish := fun hn => by subst hn; simp [Call.quiet] at hq
    simp [this]
  refine ⟨fun h => ?_, fun h => ?_, List.Sublist.refl _⟩
  · exact ⟨by simpa [h1] using h.1, by simpa [h2] using h.2.1, h.2.2⟩
  · simpa [Sync.finishOk, h3] using h

theorem Sync.keeps_pending (s : Sync) (p : List (ID × threadInfo)) :
    s.keeps { s with pending := p } :=
  ⟨fun h => h, fun h => h, List.Sublist.refl _⟩

theorem removeElement_keeps (s : Sync) (tid : ID) : s.keeps (removeElement s tid) := by
  unfold removeElement
  cases hin : isInitialThread s tid with
  | false => simpa using Sync.keeps_refl s
  | true =>
    simp only [if_true]
    obtain ⟨v, hv⟩ := Option.isSome_iff_exists.mp hin
    refine ⟨fun h => ?_, fun h => ?_, GoMap.delete_sublist _ _⟩
    · obtain ⟨-, h2, h3⟩ := h
      have hlen := GoMap.len_delete s.initialThreads tid v h3 hv
      refine ⟨by simp [lastTotal_append], ?_, GoMap.nodup_delete _ _ h3⟩
      have hc : countAddThread (s.calls ++ [Call.SetTotalThreads (s.threadsTotal - 1)]) =
          countAddThread s.calls := by
        rw [countAddThread_append]
        simp
      simp only [hc]
      have hlen2 : ((GoMap.delete s.initialThreads tid).len : Int) + 1 =
          (s.initialThreads.len : Int) := by exact_mod_cast hlen
      omega
    · have hc : countFinish (s.calls ++ [Call.SetTotalThreads (s.threadsTotal - 1)]) =
          countFinish s.calls := by
        rw [countFinish_append]
        simp
      rcases h with h | ⟨-, h⟩
      · exact Or.inl (by simpa [hc] using h)
      · simp [isInitialThread, h, GoMap.get?] at hin

theorem processThread_keeps (s : Sync) (tid : ID) (ti : threadInfo) (r : FetchResult) :
    s.keeps (processThread s tid ti r) := by
  have hlog : s.keeps { s with calls := s.calls ++ [Call.GetThread tid] } := by
    simpa using Sync.keeps_log s (Call.GetThread tid) s.pending rfl
  unfold processThread
  split
  · exact Sync.keeps_trans _ _ _ hlog (removeElement_keeps _ _)
  · split
    · exact Sync.keeps_trans _ _ _ hlog (removeElement_keeps _ _)
    · refine Sync.keeps_trans _ _ _ hlog ?_
      exact Sync.keeps_log { s with calls := s.calls ++ [Call.GetThread tid] }
        (Call.processNewExternalThreadUntilSuccess tid ti) _ rfl

theorem append_pair {α : Type} (cs : List α) (a b : α) : cs ++ [a, b] = (cs ++ [a]) ++ [b] := by
  simp

theorem processThreadGo_keeps (s : Sync) (tid : ID) (err : Option Error) :
    s.keeps (processThreadGo s tid err) := by
  unfold processThreadGo
  cases err with
  | some e => exact Sync.keeps_refl s
  | none =>
    simp only
    split
    · exact Sync.keeps_refl s
    · cases hin : isInitialThread s tid with
      | false => simpa using Sync.keeps_refl s
      | true =>
        simp only [if_true]
        obtain ⟨v, hv⟩ := Option.isSome_iff_exists.mp hin
        have hne : s.initialThreads ≠ [] := by
          intro h0
          simp [isInitialThread, h0, GoMap.get?] at hin
        by_cases h0 : (GoMap.delete s.initialThreads tid).len = 0
        · simp only [h0, if_true]
          refine ⟨fun h => ?_, fun h => ?_, GoMap.delete_sublist _ _⟩
          · obtain ⟨h1, h2, h3⟩ := h
            have hlen := GoMap.len_delete s.initialThreads tid v h3 hv
            have hlen2 : ((GoMap.delete s.initialThreads tid).len : Int) + 1 =
                (s.initialThreads.len : Int) := by exact_mod_cast hlen
            refine ⟨?_, ?_, GoMap.nodup_delete _ _ h3⟩
            · show lastTotal (s.calls ++ [Call.AddThread] ++ [Call.Finish]) = _
              rw [lastTotal_append, lastTotal_append]
              exact h1
            · show s.threadsTotal = _ +
                ((countAddThread (s.calls ++ [Call.AddThread] ++ [Call.Finish]) : Nat) : Int)
              rw [countAddThread_append, countAddThread_append]
              simp only [if_true, if_false, reduceCtorEq]
              push_cast
              omega
          · rcases h with h | ⟨-, h⟩
            · right
              refine ⟨?_, List.length_eq_zero.mp h0⟩
              show countFinish (s.calls ++ [Call.AddThread] ++ [Call.Finish]) = 1
              rw [countFinish_append, countFinish_append]
              simp [h]
            · exact absurd h hne
        · simp only [h0, if_false]
          refine ⟨fun h => ?_, fun h => ?_, GoMap.delete_sublist _ _⟩
          · obtain ⟨h1, h2, h3⟩ := h
            have hlen := GoMap.len_delete s.initialThreads tid v h3 hv
            have hlen2 : ((GoMap.delete s.initialThreads tid).len : Int) + 1 =
                (s.initialThreads.len : Int) := by exact_mod_cast hlen
            refine ⟨?_, ?_, GoMap.nodup_delete _ _ h3⟩
            · show lastTotal (s.calls ++ [Call.AddThread]) = _
              rw [lastTotal_append]
              exact h1
            · show s.threadsTotal = _ +
                ((countAddThread (s.calls ++ [Call.AddThread]) : Nat) : Int)
              rw [countAddThread_append]
              simp only [if_true]
              push_cast
              omega
          · rcases h with h | ⟨-, h⟩
            · left
              show countFinish (s.calls ++ [Call.AddThread]) = 0
              rw [countFinish_append]
              simp [h]
            · exact absurd h hne

theorem Sync.step_keeps (s : Sync) (e : Event) : s.keeps (s.step e) := by
  cases e with
  | process tid ti r => exact processThread_keeps s tid ti r
  | returned tid ti err =>
    simp only [Sync.step]
    split
    · exact Sync.keeps_trans _ _ _ (Sync.keeps_pending s _) (processThreadGo_keeps _ tid err)
    · exact Sync.keeps_refl s

theorem routeAction_keeps (ThreadInfoCollectionName : GoString) (t : threadProcessor)
    (env : RouterEnv) (s s1 : Sync) (action : Action)
    (h : routeAction ThreadInfoCollectionName t env s action = some s1) : s.keeps s1 := by
  cases hpre : HasPrefix action.Collection ThreadInfoCollectionName with
  | false =>
    by_cases hid : t.threadId = ID.Undef
    · simp [routeAction, hpre, ID.String, hid] at h
    · rw [routeAction_user ThreadInfoCollectionName t env hid s action hpre] at h
      cases h
      cases hl : registeredLaunch t action with
      | none => simpa using Sync.keeps_refl s
      | some c =>
        have hq : c.quiet = true := by
          unfold registeredLaunch at hl
          split at hl
          · cases hl
            rfl
          · cases hl
        simpa using Sync.keeps_log s c s.pending hq
  | true =>
    simp only [routeAction, hpre, Bool.not_true, Bool.false_eq_true, if_false] at h
    by_cases hdel : action.Type_ = ActionDelete
    · simp only [hdel, if_true, Option.some.injEq] at h
      subst h
      simpa [removeThread] using Sync.keeps_log s (Call.DeleteObject action.ID) s.pending rfl
    · by_cases hcr : action.Type_ = ActionCreate
      · have hlog : s.keeps { s with calls := s.calls ++ [Call.FindByID action.ID] } := by
          simpa using Sync.keeps_log s (Call.FindByID action.ID) s.pending rfl
        have hcd : ¬ (ActionCreate = ActionDelete) := by decide
        simp only [hcr, hcd, if_false, ne_eq, not_true_eq_false] at h
        cases hc : t.threadsCollection with
        | none => simp [hc] at h
        | some c =>
          simp only [hc] at h
          cases hf : env.FindByID action.ID with
          | error e =>
            simp only [hf, Option.some.injEq] at h
            subst h
            exact hlog
          | ok ti =>
            simp only [hf] at h
            cases hd : env.Decode ti.ID with
            | error e =>
              simp only [hd, Option.some.injEq] at h
              subst h
              exact hlog
            | ok tid =>
              simp only [hd] at h
              split at h
              · cases h
                exact hlog
              · cases h
                exact Sync.keeps_trans _ _ _ hlog (processThread_keeps _ _ _ _)
      · simp only [hdel, if_false, ne_eq, hcr, not_false_eq_true, if_true,
          Option.some.injEq] at h
        subst h
        exact Sync.keeps_refl s

theorem Sync.sessionStep_keeps (ThreadInfoCollectionName : GoString) (t : threadProcessor)
    (s : Sync) (step : SessionStep) :
    s.keeps (s.sessionStep ThreadInfoCollectionName t step) := by
  cases step with
  | task e => exact Sync.step_keeps s e
  | route env action =>
    simp only [Sync.sessionStep]
    cases h : routeAction ThreadInfoCollectionName t env s action with
    | none => exact Sync.keeps_refl s
    | some s1 => exact routeAction_keeps ThreadInfoCollectionName t env s s1 action h

theorem Sync.session_keeps (ThreadInfoCollectionName : GoString) (t : threadProcessor)
    (steps : List SessionStep) (s : Sync) :
    s.keeps (s.session ThreadInfoCollectionName t steps) := by
  induction steps generalizing s with
  | nil => exact Sync.keeps_refl s
  | cons step rest ih =>
    exact Sync.keeps_trans _ _ _ (Sync.sessionStep_keeps ThreadInfoCollectionName t s step)
      (ih _)

/-- The state in which `Listen` leaves the session to its goroutines. -/
theorem Listen_ok (t : threadProcessor) (initialThreads : GoMap ID threadInfo)
    (listenErr : Option Error) (recoveryProgress : Bool) (s0 : Sync)
    (h : Listen t initialThreads listenErr recoveryProgress = some (.ok s0)) :
    s0.initialThreads = initialThreads ∧ s0.threadsTotal = (initialThreads.len : Int) ∧
    s0.pending = [] ∧
    s0.calls = (if initialThreads = [] then []
      else (if recoveryProgress then [Call.Start] else []) ++
        [Call.SetTotalThreads (initialThreads.len : Int)]) := by
  unfold Listen at h
  cases hdb : t.db with
  | none => simp [hdb] at h
  | some d =>
    cases listenErr with
    | some e => simp [hdb] at h
    | none =>
      simp only [hdb] at h
      by_cases hnil : initialThreads = []
      · subst hnil
        simp [GoMap.len] at h
        subst h
        simp [GoMap.len]
      · have hlen : ¬ ((initialThreads.len : Int) = 0) := by
          simpa [GoMap.len] using hnil
        simp only [ne_eq, hlen, not_false_eq_true, if_true, Option.some.injEq,
          Except.ok.injEq] at h
        subst h
        simp [hnil]

theorem Sync.session_append (ThreadInfoCollectionName : GoString) (t : threadProcessor)
    (s : Sync) (a b : List SessionStep) :
    s.session ThreadInfoCollectionName t (a ++ b) =
      (s.session ThreadInfoCollectionName t a).session ThreadInfoCollectionName t b := by
  simp [Sync.session, List.foldl_append]

/-- `Listen` starts the session with `Finish` not called. -/
theorem Listen_finishOk (t : threadProcessor) (initialThreads : GoMap ID threadInfo)
    (listenErr : Option Error) (recoveryProgress : Bool) (s0 : Sync)
    (h : Listen t initialThreads listenErr recoveryProgress = some (.ok s0)) : s0.finishOk := by
  obtain ⟨-, -, -, hcalls⟩ := Listen_ok t initialThreads listenErr recoveryProgress s0 h
  left
  rw [hcalls]
  by_cases hnil : initialThreads = []
  · simp [hnil, countFinish]
  · cases recoveryProgress <;> simp [hnil, countFinish]

/-- `Listen` starts a session on a non-empty backlog with the total reported. -/
theorem Listen_totalOk (t : threadProcessor) (initialThreads : GoMap ID threadInfo)
    (listenErr : Option Error) (recoveryProgress : Bool) (s0 : Sync)
    (hne : initialThreads ≠ []) (hnodup : (initialThreads.map Prod.fst).Nodup)
    (h : Listen t initialThreads listenErr recoveryProgress = some (.ok s0)) : s0.totalOk := by
  obtain ⟨h1, h2, -, hcalls⟩ := Listen_ok t initialThreads listenErr recoveryProgress s0 h
  refine ⟨?_, ?_, by rw [h1]; exact hnodup⟩
  · rw [hcalls, h2]
    cases recoveryProgress <;> simp [hne, lastTotal]
  · rw [hcalls, h1, h2]
    cases recoveryProgress <;> simp [hne, countAddThread]

/-- C15: in every session that `Listen` starts (any sequence of `processThread`
calls, returns of resolution goroutines and routed actions), at every point
`Finish` has been called at most once, the backlog is empty from the moment it
has been called, the backlog is a sublist of the initial one, and it only loses
entries as the session goes on. -/
theorem C15_finish_at_most_once (ThreadInfoCollectionName : GoString) (t : threadProcessor)
    (initialThreads : GoMap ID threadInfo) (listenErr : Option Error)
    (recoveryProgress : Bool) (s0 : Sync) (steps : List SessionStep)
    (hstart : Listen t initialThreads listenErr recoveryProgress = some (.ok s0)) :
    countFinish (s0.session ThreadInfoCollectionName t steps).calls ≤ 1 ∧
    (countFinish (s0.session ThreadInfoCollectionName t steps).calls ≠ 0 →
      (s0.session ThreadInfoCollectionName t steps).initialThreads = []) ∧
    List.Sublist (s0.session ThreadInfoCollectionName t steps).initialThreads initialThreads ∧
    ∀ more : List SessionStep,
      List.Sublist (s0.session ThreadInfoCollectionName t (steps ++ more)).initialThreads
        (s0.session ThreadInfoCollectionName t steps).initialThreads := by
  have hk := Sync.session_keeps ThreadInfoCollectionName t steps s0
  have hfin := hk.2.1 (Listen_finishOk t initialThreads listenErr recoveryProgress s0 hstart)
  have hinit := (Listen_ok t initialThreads listenErr recoveryProgress s0 hstart).1
  refine ⟨?_, ?_, ?_, ?_⟩
  · rcases hfin with h | ⟨h, -⟩ <;> omega
  · intro hne
    rcases hfin with h | ⟨-, h⟩
    · exact absurd h hne
    · exact h
  · rw [← hinit]
    exact hk.2.2
  · intro more
    rw [Sync.session_append]
    exact (Sync.session_keeps ThreadInfoCollectionName t more _).2.2

/-- C15, witness: the session `remoteFirstSteps` on the backlog `backlogAB`. -/
theorem C15_finish_at_most_once_witness :
    countFinish (sessionAB.session "threads".toList workspaceProcessor remoteFirstSteps).calls
      ≤ 1 :=
  (C15_finish_at_most_once "threads".toList workspaceProcessor backlogAB none false sessionAB
    remoteFirstSteps rfl).1

/-- C16: in every session that `Listen` starts on a non-empty backlog (a map,
every thread id once), at every point the value most recently passed to
`SetTotalThreads` is the number of threads still in the backlog plus the number
of `AddThread` calls made so far; once `Finish` has been called it is the number
of `AddThread` calls. -/
theorem C16_reported_total (ThreadInfoCollectionName : GoString) (t : threadProcessor)
    (initialThreads : GoMap ID threadInfo) (listenErr : Option Error)
    (recoveryProgress : Bool) (s0 : Sync) (steps : List SessionStep)
    (hne : initialThreads ≠ []) (hnodup : (initialThreads.map Prod.fst).Nodup)
    (hstart : Listen t initialThreads listenErr recoveryProgress = some (.ok s0)) :
    lastTotal (s0.session ThreadInfoCollectionName t steps).calls =
      some (((s0.session ThreadInfoCollectionName t steps).initialThreads.len : Int) +
        (countAddThread (s0.session ThreadInfoCollectionName t steps).calls : Int)) ∧
    (countFinish (s0.session ThreadInfoCollectionName t steps).calls ≠ 0 →
      lastTotal (s0.session ThreadInfoCollectionName t steps).calls =
        some (countAddThread (s0.session ThreadInfoCollectionName t steps).calls : Int)) := by
  have hk := Sync.session_keeps ThreadInfoCollectionName t steps s0
  have hfin := hk.2.1 (Listen_finishOk t initialThreads listenErr recoveryProgress s0 hstart)
  obtain ⟨h1, h2, -⟩ :=
    hk.1 (Listen_totalOk t initialThreads listenErr recoveryProgress s0 hne hnodup hstart)
  have hmain : lastTotal (s0.session ThreadInfoCollectionName t steps).calls =
      some (((s0.session ThreadInfoCollectionName t steps).initialThreads.len : Int) +
        (countAddThread (s0.session ThreadInfoCollectionName t steps).calls : Int)) := by
    rw [h1, h2]
  refine ⟨hmain, fun hcalled => ?_⟩
  rcases hfin with h | ⟨-, h⟩
  · exact absurd h hcalled
  · rw [hmain, h]
    simp [GoMap.len]

/-- C16, witness: the session `remoteFirstSteps` on the backlog `backlogAB`. -/
theorem C16_reported_total_witness :
    lastTotal (sessionAB.session "threads".toList workspaceProcessor remoteFirstSteps).calls =
      some (((sessionAB.session "threads".toList workspaceProcessor
          remoteFirstSteps).initialThreads.len : Int) +
        (countAddThread (sessionAB.session "threads".toList workspaceProcessor
          remoteFirstSteps).calls : Int)) :=
  (C16_reported_total "threads".toList workspaceProcessor backlogAB none false sessionAB
    remoteFirstSteps (by decide) (by decide) rfl).1

/-! ## A successful `Init` -/

theorem GoMap.mem_keys_of_get? {K V : Type} [DecidableEq K] (m : GoMap K V) (k : K) (v : V)
    (h : GoMap.get? m k = some v) : k ∈ m.map Prod.fst := by
  induction m with
  | nil => simp [GoMap.get?] at h
  | cons e m ih =>
    obtain ⟨k1, v1⟩ := e
    by_cases h1 : k1 = k
    · simp [h1]
    · simp only [GoMap.get?, h1, if_false] at h
      simp [ih h]

theorem GoMap.get?_of_mem_keys {K V : Type} [DecidableEq K] (m : GoMap K V) (k : K)
    (h : k ∈ m.map Prod.fst) : ∃ v, GoMap.get? m k = some v := by
  cases hg : GoMap.get? m k with
  | some v => exact ⟨v, rfl⟩
  | none =>
    exfalso
    induction m with
    | nil => simp at h
    | cons e m ih =>
      obtain ⟨k1, v1⟩ := e
      by_cases h1 : k1 = k
      · simp [GoMap.get?, h1] at hg
      · simp only [GoMap.get?, h1, if_false] at hg
        simp only [List.map_cons, List.mem_cons] at h
        rcases h with h | h
        · exact h1 h.symm
        · exact ih h hg

/-- The options record that `Init` builds holds, for every name, the handler
supplied last for it. -/
theorem options_actionProcessors (options : List ThreadProcessorOption)
    (o : ThreadProcessorOptions) (name : GoString) :
    (options.foldl (fun o opt => opt.apply o) o).actionProcessors.get? name =
      options.foldl (fun acc opt => match opt with
        | .WithCollectionAndActionProcessor collectionName _ actionProcessor =>
          if collectionName = name then some actionProcessor else acc
        | _ => acc) (o.actionProcessors.get? name) := by
  induction options generalizing o with
  | nil => rfl
  | cons opt rest ih =>
    simp only [List.foldl_cons]
    rw [ih]
    cases opt with
    | WithCollection n sch => rfl
    | WithCollectionAndActionProcessor n sch h =>
      by_cases hn : n = name
      · subst hn
        simp [ThreadProcessorOption.apply, GoMap.get?_set_self]
      · have hn2 : name ≠ n := fun h2 => hn h2.symm
        simp [ThreadProcessorOption.apply, GoMap.get?_set_ne _ _ _ _ hn2, hn]

/-- The options record that `Init` builds holds every supplied collection name. -/
theorem options_collections (options : List ThreadProcessorOption)
    (o : ThreadProcessorOptions) (name : GoString)
    (h : name ∈ suppliedNames options ∨ name ∈ o.collections.map Prod.fst) :
    name ∈ (options.foldl (fun o opt => opt.apply o) o).collections.map Prod.fst := by
  induction options generalizing o with
  | nil =>
    rcases h with h | h
    · simp [suppliedNames] at h
    · exact h
  | cons opt rest ih =>
    simp only [List.foldl_cons]
    apply ih
    have hset : ∀ (n : GoString) (sch : Schema),
        name = n ∨ name ∈ o.collections.map Prod.fst →
          name ∈ (o.collections.set n sch).map Prod.fst := by
      intro n sch hor
      by_cases hn : name = n
      · subst hn
        exact GoMap.mem_keys_of_get? _ _ sch (GoMap.get?_set_self _ _ _)
      · rcases hor with hor | hor
        · exact absurd hor hn
        · obtain ⟨v, hv⟩ := GoMap.get?_of_mem_keys _ _ hor
          exact GoMap.mem_keys_of_get? _ _ v (by rw [GoMap.get?_set_ne _ _ _ _ hn]; exact hv)
    simp only [suppliedNames, List.map_cons, List.mem_cons] at h
    rcases h with (h | h) | h
    · right
      cases opt with
      | WithCollection n sch => exact hset n sch (Or.inl h)
      | WithCollectionAndActionProcessor n sch hd => exact hset n sch (Or.inl h)
    · exact Or.inl h
    · right
      cases opt with
      | WithCollection n sch => exact hset n sch (Or.inr h)
      | WithCollectionAndActionProcessor n sch hd => exact hset n sch (Or.inr h)

/-- A successful `AddCollectionWithPrefix`, with what it has done to the store:
nothing when the store had the collection, one entry under the full name when it
had not. -/
theorem AddCollectionWithPrefix_store (t t1 : threadProcessor) (pfx : GoString)
    (schema : Schema) (store : StoreOracle) (c : Collection)
    (h : AddCollectionWithPrefix t pfx schema store = some (.ok c, t1)) :
    ∃ d d1 m, t.db = some d ∧ t.threadId ≠ ID.Undef ∧ t.collections = some m ∧
      t1.db = some d1 ∧ t1.collections = some (m.set pfx c) ∧
      ((d.GetCollection (pfx ++ t.threadId.str) = some c ∧ d1 = d) ∨
        (d.GetCollection (pfx ++ t.threadId.str) = none ∧
          d1.collections = d.collections.set (pfx ++ t.threadId.str) c)) := by
  by_cases hid : t.threadId = ID.Undef
  · simp [AddCollectionWithPrefix, ID.String, hid] at h
  · cases hdb : t.db with
    | none => simp [AddCollectionWithPrefix, ID.String, hid, addCollection, hdb] at h
    | some d =>
      cases hm : t.collections with
      | none =>
        cases hget : d.GetCollection (pfx ++ t.threadId.str) with
        | some c1 =>
          simp [AddCollectionWithPrefix, ID.String, hid, addCollection, hdb, hget, hm] at h
        | none =>
          cases hst : store { Name := pfx ++ t.threadId.str, Schema := schema } <;>
            simp [AddCollectionWithPrefix, ID.String, hid, addCollection, hdb, hget,
              DB.NewCollection, hst, hm] at h
      | some m =>
        cases hget : d.GetCollection (pfx ++ t.threadId.str) with
        | some c1 =>
          simp only [AddCollectionWithPrefix, ID.String, hid, addCollection, hdb, hget, hm,
            if_false, Option.some.injEq, Prod.mk.injEq, Except.ok.injEq] at h
          obtain ⟨hc, ht⟩ := h
          subst hc
          subst ht
          exact ⟨d, d, m, rfl, hid, rfl, rfl, rfl, Or.inl ⟨hget, rfl⟩⟩
        | none =>
          cases hst : store { Name := pfx ++ t.threadId.str, Schema := schema } with
          | error e =>
            simp [AddCollectionWithPrefix, ID.String, hid, addCollection, hdb, hget,
              DB.NewCollection, hst] at h
          | ok c1 =>
            simp only [AddCollectionWithPrefix, ID.String, hid, addCollection, hdb, hget,
              DB.NewCollection, hst, hm, if_false, Option.some.injEq, Prod.mk.injEq,
              Except.ok.injEq] at h
            obtain ⟨hc, ht⟩ := h
            subst hc
            subst ht
            exact ⟨d, _, m, rfl, hid, rfl, rfl, rfl, Or.inr ⟨hget, rfl⟩⟩

/-- A successful `addCollection`: the store handle is set and the store holds the
returned collection under the name. -/
theorem addCollection_store (t t1 : threadProcessor) (name : GoString) (schema : Schema)
    (store : StoreOracle) (c : Collection)
    (h : addCollection t name schema store = some (.ok c, t1)) :
    ∃ d1, t1 = { t with db := some d1 } ∧ d1.GetCollection name = some c := by
  unfold addCollection at h
  cases hdb : t.db with
  | none => simp [hdb] at h
  | some d =>
    simp only [hdb] at h
    cases hget : d.GetCollection name with
    | some c1 =>
      simp only [hget, Option.some.injEq, Prod.mk.injEq, Except.ok.injEq] at h
      obtain ⟨rfl, rfl⟩ := h
      refine ⟨d, ?_, hget⟩
      cases t
      simp_all
    | none =>
      simp only [hget, Option.some.injEq, Prod.mk.injEq] at h
      obtain ⟨h1, rfl⟩ := h
      cases hst : store { Name := name, Schema := schema } with
      | error e => simp [DB.NewCollection, hst] at h1
      | ok c1 =>
        simp only [DB.NewCollection, hst, Except.ok.injEq] at h1
        subst h1
        refine ⟨_, rfl, ?_⟩
        simp [DB.NewCollection, hst, DB.GetCollection, GoMap.get?_set_self]

/-- After the loop of `Init` every name of the loop is registered, and so is
every name that was registered before. -/
theorem registerOptions_registered (store : StoreOracle) (l : List (GoString × Schema))
    (t t1 : threadProcessor) (h : registerOptions store t l = some (none, t1)) :
    (∀ name ∈ l.map Prod.fst, ∃ c, readMap t1.collections name = some c) ∧
    (∀ k c, readMap t.collections k = some c → ∃ c2, readMap t1.collections k = some c2) := by
  induction l generalizing t with
  | nil =>
    simp only [registerOptions, Option.some.injEq, Prod.mk.injEq, true_and] at h
    subst h
    exact ⟨fun name hn => by simp at hn, fun k c hk => ⟨c, hk⟩⟩
  | cons x rest ih =>
    obtain ⟨name, schema⟩ := x
    simp only [registerOptions] at h
    cases ha : AddCollectionWithPrefix t name schema store with
    | none => simp [ha] at h
    | some res =>
      obtain ⟨r2, t2⟩ := res
      cases r2 with
      | error err => simp [ha] at h
      | ok c =>
        simp only [ha] at h
        obtain ⟨d, d1, m, -, -, hm, -, hm2, -⟩ :=
          AddCollectionWithPrefix_store t t2 name schema store c ha
        obtain ⟨ih1, ih2⟩ := ih t2 h
        have hkeep : ∀ k c1, readMap t.collections k = some c1 →
            ∃ c2, readMap t2.collections k = some c2 := by
          intro k c1 hk
          rw [hm2]
          rw [hm] at hk
          by_cases hkn : k = name
          · subst hkn
            exact ⟨c, by simp [readMap, GoMap.get?_set_self]⟩
          · exact ⟨c1, by simpa [readMap, GoMap.get?_set_ne _ _ _ _ hkn] using hk⟩
        refine ⟨fun n hn => ?_, fun k c1 hk => ?_⟩
        · simp only [List.map_cons, List.mem_cons] at hn
          rcases hn with hn | hn
          · subst hn
            exact ih2 n c (by rw [hm2]; simp [readMap, GoMap.get?_set_self])
          · exact ih1 n hn
        · obtain ⟨c2, hc2⟩ := hkeep k c1 hk
          exact ih2 k c2 hc2

/-- The loop of `Init` leaves the thread-info collection registered under the
reserved name, when the store holds it under the reserved name followed by the
thread id, or when the reserved name is not among the names of the loop. -/
theorem registerOptions_reserved (ThreadInfoCollectionName : GoString) (store : StoreOracle)
    (coll : Collection) (l : List (GoString × Schema)) (t t1 : threadProcessor)
    (hcase : (∃ d, t.db = some d ∧
        d.GetCollection (ThreadInfoCollectionName ++ t.threadId.str) = some coll) ∨
      ThreadInfoCollectionName ∉ l.map Prod.fst)
    (hreg : readMap t.collections ThreadInfoCollectionName = some coll)
    (h : registerOptions store t l = some (none, t1)) :
    readMap t1.collections ThreadInfoCollectionName = some coll := by
  induction l generalizing t with
  | nil =>
    simp only [registerOptions, Option.some.injEq, Prod.mk.injEq, true_and] at h
    subst h
    exact hreg
  | cons x rest ih =>
    obtain ⟨name, schema⟩ := x
    simp only [registerOptions] at h
    cases ha : AddCollectionWithPrefix t name schema store with
    | none => simp [ha] at h
    | some res =>
      obtain ⟨r2, t2⟩ := res
      cases r2 with
      | error err => simp [ha] at h
      | ok c =>
        simp only [ha] at h
        obtain ⟨d, d1, m, hdb, -, hm, hdb2, hm2, hstore⟩ :=
          AddCollectionWithPrefix_store t t2 name schema store c ha
        have htid : t2.threadId = t.threadId :=
          (AddCollectionWithPrefix_frame t t2 name schema store _ ha).2.2.2.2
        rw [hm] at hreg
        by_cases hname : name = ThreadInfoCollectionName
        · subst hname
          rcases hcase with ⟨d0, hd0, hget0⟩ | hnot
          · rw [hdb] at hd0
            cases hd0
            rcases hstore with ⟨hfound, hd1⟩ | ⟨hnone, -⟩
            · rw [hget0] at hfound
              cases hfound
              subst hd1
              apply ih t2 (Or.inl ⟨_, hdb2, by rw [htid]; exact hget0⟩)
              · rw [hm2]
                simp [readMap, GoMap.get?_set_self]
              · exact h
            · rw [hget0] at hnone
              cases hnone
          · simp at hnot
        · have hne : ThreadInfoCollectionName ≠ name := fun h0 => hname h0.symm
          have hreg2 : readMap t2.collections ThreadInfoCollectionName = some coll := by
            rw [hm2]
            simpa [readMap, GoMap.get?_set_ne _ _ _ _ hne] using hreg
          refine ih t2 ?_ hreg2 h
          rcases hcase with ⟨d0, hd0, hget0⟩ | hnot
          · left
            rw [hdb] at hd0
            cases hd0
            refine ⟨d1, hdb2, ?_⟩
            rw [htid]
            rcases hstore with ⟨-, hd1⟩ | ⟨-, hd1⟩
            · rw [hd1]
              exact hget0
            · have hfull : ThreadInfoCollectionName ++ t.threadId.str ≠ name ++ t.threadId.str :=
                fun h0 => hne (List.append_cancel_right h0)
              simpa [DB.GetCollection, hd1, GoMap.get?_set_ne _ _ _ _ hfull] using hget0
          · right
            simp only [List.map_cons, List.mem_cons, not_or] at hnot
            exact hnot.2

/-- The options record that `Init` builds holds no other collection names than
the supplied ones. -/
theorem options_collections_subset (options : List ThreadProcessorOption)
    (o : ThreadProcessorOptions) (name : GoString)
    (h : name ∈ (options.foldl (fun o opt => opt.apply o) o).collections.map Prod.fst) :
    name ∈ suppliedNames options ∨ name ∈ o.collections.map Prod.fst := by
  induction options generalizing o with
  | nil => exact Or.inr h
  | cons opt rest ih =>
    simp only [List.foldl_cons] at h
    have hset : ∀ (n : GoString) (sch : Schema),
        name ∈ (o.collections.set n sch).map Prod.fst →
          name = n ∨ name ∈ o.collections.map Prod.fst := by
      intro n sch hmem
      by_cases hn : name = n
      · exact Or.inl hn
      · right
        obtain ⟨v, hv⟩ := GoMap.get?_of_mem_keys _ _ hmem
        rw [GoMap.get?_set_ne _ _ _ _ hn] at hv
        exact GoMap.mem_keys_of_get? _ _ v hv
    rcases ih _ h with h1 | h1
    · left
      simp only [suppliedNames, List.map_cons, List.mem_cons]
      exact Or.inr h1
    · cases opt with
      | WithCollection n sch =>
        rcases hset n sch h1 with h2 | h2
        · left
          simp [suppliedNames, ThreadProcessorOption.name, h2]
        · exact Or.inr h2
      | WithCollectionAndActionProcessor n sch hd =>
        rcases hset n sch h1 with h2 | h2
        · left
          simp [suppliedNames, ThreadProcessorOption.name, h2]
        · exact Or.inr h2

/-- C12, counterexample: an account processor is initialised for thread `bafw`
with the option `WithCollection` for the reserved name `threads` itself.  The
thread-info collection is created under the store name `threads` (address 1), the
supplied collection under `threadsbafw` (address 2), and the registration of the
supplied collection replaces the registry entry of the reserved name: `Init`
succeeds, `GetCollectionWithPrefix` returns the collection at address 2 for the
reserved name, `GetThreadCollection` the one at address 1. -/
theorem C12_counterexample :
    ∃ (t1 : threadProcessor) (calls : List Call),
      Init "threads".toList
        { GetThread := fun _ => .ok "key".toList, NewDB := fun _ _ => .ok ⟨[], []⟩,
          store := fun config => if config.Name = "threads".toList then .ok ⟨1⟩ else .ok ⟨2⟩,
          rangeOrder := fun m => m }
        (NewThreadProcessor true) ⟨"bafw".toList⟩
        [ThreadProcessorOption.WithCollection "threads".toList 1] = some (none, t1, calls) ∧
      GetCollectionWithPrefix t1 "threads".toList = some ⟨2⟩ ∧
      GetThreadCollection t1 = some ⟨1⟩ ∧
      GetCollectionWithPrefix t1 "threads".toList ≠ GetThreadCollection t1 := by
  refine ⟨_, _, rfl, ?_, ?_, ?_⟩ <;> decide

/-- C12, amended: when `Init` succeeds on a processor without store handle (Go's
`range` visiting every entry of the collections map), `GetThreadId` returns the id
passed in, `GetThreadCollection` returns a collection, `GetCollectionWithPrefix`
returns a collection for the reserved thread-info name and for every collection
name supplied through the options, and the handler map holds under every name
the handler supplied for it through `WithCollectionAndActionProcessor` (the last
one, if several), and nothing under the other names.  The collection registered
under the reserved name is the one `GetThreadCollection` returns, unless the
processor is an account processor and the reserved name is among the supplied
names. -/
theorem C12_Init_success (ThreadInfoCollectionName : GoString) (env : InitEnv)
    (t t1 : threadProcessor) (id : ID) (options : List ThreadProcessorOption)
    (calls : List Call) (hdb : t.db = none)
    (hrange : ∀ m, (env.rangeOrder m).Perm m)
    (hsucc : Init ThreadInfoCollectionName env t id options = some (none, t1, calls)) :
    GetThreadId t1 = id ∧
    (∃ c, GetThreadCollection t1 = some c) ∧
    (∃ c, GetCollectionWithPrefix t1 ThreadInfoCollectionName = some c) ∧
    (∀ name ∈ suppliedNames options, ∃ c, GetCollectionWithPrefix t1 name = some c) ∧
    (∀ name, readMap t1.actionProcessors name = suppliedHandler options name) ∧
    (t.isAccountProcessor = false ∨ ThreadInfoCollectionName ∉ suppliedNames options →
      GetCollectionWithPrefix t1 ThreadInfoCollectionName = GetThreadCollection t1) := by
  have hid : id ≠ ID.Undef := by
    intro h0
    subst h0
    simp [Init, hdb] at hsucc
  simp only [Init, hdb, ne_eq, not_true_eq_false, if_false, hid, ID.String] at hsucc
  split at hsucc
  · simp at hsucc
  · split at hsucc
    · simp at hsucc
    · rename_i key hgetT d hnewDB
      split at hsucc
      · simp at hsucc
      · simp at hsucc
      · rename_i coll t4 hadd
        obtain ⟨d1, ht4, hget1⟩ := addCollection_store _ t4 _ _ _ coll hadd
        subst ht4
        simp only at hsucc
        split at hsucc
        · simp at hsucc
        · simp at hsucc
        · rename_i t6 hreg
          simp only [Option.some.injEq, Prod.mk.injEq, true_and] at hsucc
          obtain ⟨ht1, -⟩ := hsucc
          subst ht1
          obtain ⟨-, f2, -, f4, f5⟩ := registerOptions_frame _ _ _ t6 _ (by simp) hreg
          obtain ⟨r1, r2⟩ := registerOptions_registered _ _ _ t6 hreg
          have hreg5 : readMap (some (GoMap.set ([] : GoMap GoString Collection)
              ThreadInfoCollectionName coll)) ThreadInfoCollectionName = some coll := by
            simp [readMap, GoMap.get?_set_self]
          refine ⟨f5, ⟨coll, f2⟩, ?_, ?_, ?_, ?_⟩
          · exact r2 ThreadInfoCollectionName coll hreg5
          · intro name hname
            apply r1 name
            have hmem := options_collections options NewThreadProcessorOptions name (Or.inl hname)
            exact ((hrange _).map Prod.fst).mem_iff.mpr hmem
          · intro name
            have := options_actionProcessors options NewThreadProcessorOptions name
            simpa [readMap, suppliedHandler, NewThreadProcessorOptions, GoMap.get?] using this
          · intro hcase
            have hres := registerOptions_reserved ThreadInfoCollectionName env.store coll _ _ t6
              ?_ hreg5 hreg
            · simpa [GetCollectionWithPrefix, GetThreadCollection, f2] using hres
            · rcases hcase with hacc | hnot
              · left
                refine ⟨d1, rfl, ?_⟩
                simpa [hacc] using hget1
              · right
                intro hmem
                have hmem2 := ((hrange _).map Prod.fst).mem_iff.mp hmem
                rcases options_collections_subset options NewThreadProcessorOptions _ hmem2
                  with h1 | h1
                · exact hnot h1
                · simp [NewThreadProcessorOptions] at h1

/-- C12, witness: a new processor is initialised for thread `bafw` with a
collection `docs` that has a handler and a collection `notes` that has none. -/
theorem C12_Init_success_witness :
    GetThreadId
        { db := some { collections := [("notesbafw".toList, ⟨4⟩), ("docsbafw".toList, ⟨3⟩),
                         ("threadsbafw".toList, ⟨1⟩)],
                       newCollectionCalls :=
                         [{ Name := "threadsbafw".toList, Schema := threadInfoSchema },
                          { Name := "docsbafw".toList, Schema := 7 },
                          { Name := "notesbafw".toList, Schema := 8 }] },
          threadsCollection := some ⟨1⟩,
          collections := some [("notes".toList, ⟨4⟩), ("docs".toList, ⟨3⟩),
            ("threads".toList, ⟨1⟩)],
          actionProcessors := some [("docs".toList, ⟨9⟩)],
          isAccountProcessor := false, threadId := ⟨"bafw".toList⟩ } = ⟨"bafw".toList⟩ :=
  (C12_Init_success "threads".toList
    { GetThread := fun _ => .ok "key".toList, NewDB := fun _ _ => .ok ⟨[], []⟩,
      store := fun config =>
        if config.Name = "threadsbafw".toList then .ok ⟨1⟩
        else if config.Name = "docsbafw".toList then .ok ⟨3⟩ else .ok ⟨4⟩,
      rangeOrder := fun m => m.reverse }
    (NewThreadProcessor false) _ ⟨"bafw".toList⟩
    [ThreadProcessorOption.WithCollectionAndActionProcessor "docs".toList 7 ⟨9⟩,
     ThreadProcessorOption.WithCollection "notes".toList 8]
    [Call.GetThread ⟨"bafw".toList⟩, Call.NewDB ⟨"bafw".toList⟩ "key".toList]
    rfl (fun m => List.reverse_perm m) rfl).1

end Threads
